import Mathlib

/-!
Verification development for the smart-scheduler library: a cooperative
timer multiplexer.  The TypeScript source is shallowly embedded below:
mutable objects become explicit state passing over a `World` record,
`Date.now()` becomes an explicit `now : Int` parameter threaded through
every operation, JS numbers used as times are modelled as `Int`, and the
heap identity of `Timeout` objects (handles alias bucket entries) is
modelled with an explicit store mapping numeric ids to timeout records.
Callbacks are opaque and identified by a numeric id; "the callback was
invoked" is modelled by collecting the ids fired during a sweep.
-/

namespace SmartScheduler

/-- Lifecycle state of a Timeout: "pending" | "paused" | "complete". -/
inductive TState where
  | pending
  | paused
  | complete
deriving DecidableEq, Repr

/-- Options stored on a created Timeout, after defaults have been
materialized (`key` and `bucketKey` are always set at that point). -/
structure TimeoutOptions where
  timeMillis : Int
  recurring : Bool
  key : String
  bucketKey : String
  overwriteKey : Bool
  ignorePauseDelay : Bool
deriving DecidableEq, Repr

/-- The internal timeout record (interface TimeoutInternal).  `callback` is
an opaque callback id; `capturedGen` records which buckets-map object the
closure captured at creation time (`const schedulerBuckets = this.buckets`). -/
structure TimeoutInternal where
  options : TimeoutOptions
  expiration : Int
  state : TState
  callback : Nat
  capturedGen : Nat
deriving DecidableEq, Repr

/-- The condition guarding the expiration adjustment in the source's
pause and resume:
`(ignorePauseDelay !== undefined && !ignorePauseDelay) || (ignorePauseDelay === undefined && !this.options.ignorePauseDelay)`.
It is true exactly when the effective ignore-delay flag is false. -/
def adjustFlag : Option Bool → Bool → Bool
  | some b, _ => !b
  | none, optIgnore => !optIgnore

/-- Timeout.pause(ignorePauseDelay?): only effective when pending; sets the
state to paused, and in adjust mode stores the remaining duration
(`this.expiration = this.expiration - Date.now()`). -/
def TimeoutInternal.pause (t : TimeoutInternal) (ignorePauseDelay : Option Bool) (now : Int) :
    TimeoutInternal :=
  if t.state = TState.pending then
    let t1 : TimeoutInternal := { t with state := TState.paused }
    if adjustFlag ignorePauseDelay t.options.ignorePauseDelay then
      { t1 with expiration := t1.expiration - now }
    else t1
  else t

/-- Timeout.resume(ignorePauseDelay?): only effective when paused; sets the
state back to pending, and in adjust mode restores an absolute expiration
(`this.expiration = this.expiration + Date.now()`). -/
def TimeoutInternal.resume (t : TimeoutInternal) (ignorePauseDelay : Option Bool) (now : Int) :
    TimeoutInternal :=
  if t.state = TState.paused then
    let t1 : TimeoutInternal := { t with state := TState.pending }
    if adjustFlag ignorePauseDelay t.options.ignorePauseDelay then
      { t1 with expiration := t1.expiration + now }
    else t1
  else t

/-- Timeout.remainingTime getter: `this.expiration - Date.now()`,
unconditionally (no dependence on the state). -/
def TimeoutInternal.remainingTime (t : TimeoutInternal) (now : Int) : Int :=
  t.expiration - now

/-- Timeout.isComplete getter: `this.state === "complete"`. -/
def TimeoutInternal.isComplete (t : TimeoutInternal) : Bool :=
  t.state = TState.complete

/-- Decimal digit list of a natural number, embedding the behaviour of
JavaScript's `Number.prototype.toString` for non-negative integers
(used by the source as `(this.idCounter++).toString()`). -/
def natToChars (n : Nat) : List Char :=
  if _h : n < 10 then [Nat.digitChar n]
  else natToChars (n / 10) ++ [Nat.digitChar (n % 10)]
decreasing_by exact Nat.div_lt_self (by omega) (by omega)

/-- Decimal string of a natural number (JS `n.toString()`). -/
def natToString (n : Nat) : String :=
  String.mk (natToChars n)

/-! Association lists model JavaScript string-keyed objects: lookup finds
the first entry, insertion replaces in place or appends, deletion removes
the entry. -/

/-- Lookup in an association list (JS `obj[k]`, `none` models `undefined`). -/
def lookupA {α β : Type} [DecidableEq α] : List (α × β) → α → Option β
  | [], _ => none
  | (a, b) :: t, k => if a = k then some b else lookupA t k

/-- Insertion into an association list (JS `obj[k] = v`): replaces the
existing entry in place, or appends a new one. -/
def insertA {α β : Type} [DecidableEq α] : List (α × β) → α → β → List (α × β)
  | [], k, v => [(k, v)]
  | (a, b) :: t, k, v => if a = k then (k, v) :: t else (a, b) :: insertA t k v

/-- Deletion from an association list (JS `delete obj[k]`). -/
def eraseA {α β : Type} [DecidableEq α] : List (α × β) → α → List (α × β)
  | [], _ => []
  | (a, b) :: t, k => if a = k then t else (a, b) :: eraseA t k

/-- A bucket maps timeout keys to timeout ids; the buckets map sends each
bucket key to its bucket. -/
abbrev Bucket := List (String × Nat)

/-- The object `{[bucketKey: string]: {[timeoutKey: string]: TimeoutInternal}}`. -/
abbrev BucketMap := List (String × Bucket)

/-- Scalar fields of the Scheduler class.  `liveGen` identifies which
buckets-map object `this.buckets` currently refers to (the field is
reassigned to a fresh object by `stop`); `tickScheduled` models whether a
`setTimeout` handle is outstanding. -/
structure Scheduler where
  idCounter : Nat
  interval : Int
  expectedSchedulerIntervalExpiration : Int
  remainingPauseTime : Option Int
  liveGen : Nat
  shutdown : Bool
  started : Bool
  tickScheduled : Bool
deriving DecidableEq, Repr

/-- The full mutable world: the scheduler's scalar fields, the heap of
Timeout objects (handles are ids into it), and the heap of buckets-map
objects (generation ids; `stop` allocates a fresh one, while closures of
previously created Timeouts keep referring to the old one). -/
structure World where
  sched : Scheduler
  timeouts : List (Nat × TimeoutInternal)
  nextTid : Nat
  maps : List (Nat × BucketMap)
  nextGen : Nat
deriving DecidableEq, Repr

/-- Scheduler.DEFAULT_BUCKET_KEY. -/
def DEFAULT_BUCKET_KEY : String := "__DEFAULT__BUCKET__KEY__"

/-- The buckets map `this.buckets` currently referenced by the scheduler. -/
def liveMap (w : World) : BucketMap :=
  (lookupA w.maps w.sched.liveGen).getD []

/-- Lookup of a timeout id at a (bucketKey, key) position of the live
buckets map (JS `this.buckets[bucketKey][key]`). -/
def getLive (w : World) (bucketKey key : String) : Option Nat :=
  lookupA ((lookupA (liveMap w) bucketKey).getD []) key

/-- Heap lookup of a Timeout object by id. -/
def getTimeout (w : World) (tid : Nat) : Option TimeoutInternal :=
  lookupA w.timeouts tid

/-- Heap update of a Timeout object (mutation of the object all aliases
see). -/
def setTimeoutObj (w : World) (tid : Nat) (t : TimeoutInternal) : World :=
  { w with timeouts := insertA w.timeouts tid t }

/-- Scheduler.__INTERNAL__run(timeout): unless shut down, records the
expected expiration `Date.now() + timeout` and schedules one tick. -/
def INTERNAL_run (w : World) (timeout : Int) (now : Int) : World :=
  if !w.sched.shutdown then
    { w with sched := { w.sched with
        expectedSchedulerIntervalExpiration := now + timeout,
        tickScheduled := true } }
  else w

/-- Scheduler.start(): if not already started, clears `shutdown`, sets
`started` and kicks off the tick loop with the configured interval. -/
def Scheduler.start (w : World) (now : Int) : World :=
  if !w.sched.started then
    INTERNAL_run
      { w with sched := { w.sched with shutdown := false, started := true } }
      w.sched.interval now
  else w

/-- Scheduler.stop(): if not already shut down, sets the flags, clears the
outstanding tick, and reassigns `this.buckets = {}` — a fresh empty
buckets-map object; the old one stays in `maps` because created Timeouts'
closures still reference it. -/
def Scheduler.stop (w : World) : World :=
  if !w.sched.shutdown then
    { w with
      sched := { w.sched with
        shutdown := true, started := false, tickScheduled := false,
        liveGen := w.nextGen },
      maps := w.maps ++ [(w.nextGen, [])],
      nextGen := w.nextGen + 1 }
  else w

/-- Constructor `new Scheduler(intervalMillis, start = true)`.  The
source's `typeof intervalMillis !== "number"` guard cannot fire in the
typed embedding (the argument is an `Int`).  The initial buckets map
contains the default bucket. -/
def Scheduler.construct (intervalMillis : Int) (startNow : Bool) (now : Int) : World :=
  let w : World :=
    { sched :=
        { idCounter := 0, interval := intervalMillis,
          expectedSchedulerIntervalExpiration := 0, remainingPauseTime := none,
          liveGen := 0, shutdown := false, started := false, tickScheduled := false },
      timeouts := [], nextTid := 0,
      maps := [(0, [(DEFAULT_BUCKET_KEY, [])])], nextGen := 1 }
  if startNow then Scheduler.start w now else w

/-- Invocation of `pause` on the Timeout object with the given id
(mutation through any alias of the handle). -/
def timeoutPause (w : World) (tid : Nat) (ignorePauseDelay : Option Bool) (now : Int) : World :=
  match lookupA w.timeouts tid with
  | none => w
  | some t => setTimeoutObj w tid (t.pause ignorePauseDelay now)

/-- Invocation of `resume` on the Timeout object with the given id. -/
def timeoutResume (w : World) (tid : Nat) (ignorePauseDelay : Option Bool) (now : Int) : World :=
  match lookupA w.timeouts tid with
  | none => w
  | some t => setTimeoutObj w tid (t.resume ignorePauseDelay now)

/-- Invocation of `cancel` on the Timeout object with the given id:
`if (schedulerBuckets[this.options.bucketKey]) delete schedulerBuckets[this.options.bucketKey][this.options.key]`,
where `schedulerBuckets` is the buckets-map object captured at creation
(generation `t.capturedGen`). -/
def timeoutCancel (w : World) (tid : Nat) : World :=
  match lookupA w.timeouts tid with
  | none => w
  | some t =>
    match lookupA w.maps t.capturedGen with
    | none => w
    | some bmap =>
      match lookupA bmap t.options.bucketKey with
      | none => w
      | some bucket =>
        let bmap1 := insertA bmap t.options.bucketKey (eraseA bucket t.options.key)
        { w with maps := insertA w.maps t.capturedGen bmap1 }

/-- Timeout ids reachable from the live buckets map, in the nested
iteration order of the source's `for...in` loops. -/
def allLiveTids (w : World) : List Nat :=
  (liveMap w).foldr (fun p acc => p.2.map Prod.snd ++ acc) []

/-- Scheduler.pause(ignorePauseDelay?): when not already paused, records
the remaining tick time, clears the outstanding tick, and cascades
`pause(ignorePauseDelay)` — with the override — to every Timeout in every
bucket. -/
def Scheduler.pause (w : World) (ignorePauseDelay : Option Bool) (now : Int) : World :=
  if w.sched.remainingPauseTime.isNone then
    let w1 : World :=
      { w with sched := { w.sched with
          remainingPauseTime := some (w.sched.expectedSchedulerIntervalExpiration - now),
          tickScheduled := false } }
    (allLiveTids w1).foldl (fun acc tid => timeoutPause acc tid ignorePauseDelay now) w1
  else w

/-- Scheduler.resume(ignorePauseDelay?): when paused, reschedules a tick
with the captured remaining time and calls `bucket[key].resume()` on every
Timeout.  Note the source passes no argument there, so each Timeout falls
back to its own `options.ignorePauseDelay` (the `ignorePauseDelay`
parameter of this method is unused past the signature). -/
def Scheduler.resume (w : World) (ignorePauseDelay : Option Bool) (now : Int) : World :=
  match w.sched.remainingPauseTime with
  | some rem =>
    let w1 := INTERNAL_run w rem now
    let w2 : World := { w1 with sched := { w1.sched with remainingPauseTime := none } }
    (allLiveTids w2).foldl (fun acc tid => timeoutResume acc tid none now) w2
  | none => w

/-- One step of the sweep in __INTERNAL__runExpiredCallbacks: processes a
single timeout id, firing it when pending and expired, then either
rescheduling (recurring) or completing and evicting it via its own
`cancel`. -/
def sweepStep (now : Int) (acc : World × List Nat) (tid : Nat) : World × List Nat :=
  let w := acc.1
  match lookupA w.timeouts tid with
  | none => acc
  | some t =>
    if t.state = TState.pending ∧ t.remainingTime now ≤ 0 then
      let fired := acc.2 ++ [t.callback]
      if t.options.recurring then
        (setTimeoutObj w tid { t with expiration := now + t.options.timeMillis }, fired)
      else
        (timeoutCancel (setTimeoutObj w tid { t with state := TState.complete }) tid, fired)
    else acc

/-- Scheduler.__INTERNAL__runExpiredCallbacks: sweeps every Timeout of
every bucket of the live buckets map, then schedules the next tick with
the fixed interval.  Returns the world together with the callback ids
fired, in order. -/
def runExpiredCallbacks (w : World) (now : Int) : World × List Nat :=
  let r := (allLiveTids w).foldl (sweepStep now) (w, [])
  (INTERNAL_run r.1 r.1.sched.interval now, r.2)

/-- Argument forms accepted by Scheduler.add for the second parameter:
`nullish` models `undefined`/`null`, `num` a bare delay number, `cfg` an
options object. -/
structure TimeoutOptionsArg where
  timeMillis : Option Int := none
  recurring : Bool := false
  key : Option String := none
  bucketKey : Option String := none
  overwriteKey : Bool := false
  ignorePauseDelay : Bool := false
deriving DecidableEq, Repr

inductive AddArg where
  | nullish
  | num (n : Int)
  | cfg (o : TimeoutOptionsArg)
deriving DecidableEq, Repr

/-- The validation at the top of Scheduler.add: `options === undefined ||
options === null || (typeof options !== "number" && options.timeMillis == undefined)`. -/
def addInvalid : AddArg → Bool
  | .nullish => true
  | .num _ => false
  | .cfg o => o.timeMillis.isNone

/-- Resolution `options.key = options.key || (this.idCounter++).toString()`:
a missing or empty key is replaced by the stringified counter, and the
counter is incremented exactly in that case (JS `||` short-circuits). -/
def resolveKey : Option String → Nat → String × Nat
  | some v, c => if v = "" then (natToString c, c + 1) else (v, c)
  | none, c => (natToString c, c + 1)

/-- Resolution `options.bucketKey = options.bucketKey || Scheduler.DEFAULT_BUCKET_KEY`. -/
def resolveBucketKey : Option String → String
  | some v => if v = "" then DEFAULT_BUCKET_KEY else v
  | none => DEFAULT_BUCKET_KEY

/-- Scheduler.add(callback, options): validates, materializes defaults,
computes the expiration, creates the bucket when missing, and either
returns the existing Timeout (occupied slot without overwriteKey) or
stores and returns a new one.  The thrown
`Error("Cannot add callback without timeout.")` becomes `Except.error`. -/
def Scheduler.add (w : World) (cb : Nat) (arg : AddArg) (now : Int) :
    World × Except String Nat :=
  if addInvalid arg then
    (w, Except.error "Cannot add callback without timeout.")
  else
    let o : TimeoutOptionsArg :=
      match arg with
      | .num n => { timeMillis := some n }
      | .cfg o => o
      | .nullish => {}
    let kc := resolveKey o.key w.sched.idCounter
    let key := kc.1
    let bucketKey := resolveBucketKey o.bucketKey
    let w := { w with sched := { w.sched with idCounter := kc.2 } }
    let tm := o.timeMillis.getD 0
    let expiration := tm + now
    let ropts : TimeoutOptions :=
      { timeMillis := tm, recurring := o.recurring, key := key,
        bucketKey := bucketKey, overwriteKey := o.overwriteKey,
        ignorePauseDelay := o.ignorePauseDelay }
    let g := w.sched.liveGen
    let bmap := (lookupA w.maps g).getD []
    let bucket := (lookupA bmap bucketKey).getD []
    let bmap1 :=
      match lookupA bmap bucketKey with
      | some _ => bmap
      | none => insertA bmap bucketKey []
    let w1 : World :=
      match lookupA bmap bucketKey with
      | some _ => w
      | none => { w with maps := insertA w.maps g bmap1 }
    let doInsert : World × Except String Nat :=
      let tid := w1.nextTid
      let t : TimeoutInternal :=
        { options := ropts, expiration := expiration, state := TState.pending,
          callback := cb, capturedGen := g }
      ({ w1 with
          timeouts := insertA w1.timeouts tid t,
          nextTid := w1.nextTid + 1,
          maps := insertA w1.maps g (insertA bmap1 bucketKey (insertA bucket key tid)) },
        Except.ok tid)
    match lookupA bucket key with
    | some etid => if ropts.overwriteKey then doInsert else (w1, Except.ok etid)
    | none => doInsert

/-- Scheduler.getTimeoutsForBucket(bucketKey): the (ids of the) Timeouts
currently in the bucket, or an empty list when the bucket is absent. -/
def getTimeoutsForBucket (w : World) (bucketKey : String) : List Nat :=
  match lookupA (liveMap w) bucketKey with
  | some bucket => bucket.map Prod.snd
  | none => []

/-- Generation ids used anywhere in a world stay below `nextGen` (true of
every world reachable from the constructor; stated as a decidable
hypothesis where needed). -/
def gensBounded (w : World) : Prop :=
  (∀ p ∈ w.maps, p.1 < w.nextGen) ∧ (∀ p ∈ w.timeouts, p.2.capturedGen < w.nextGen)

instance (w : World) : Decidable (gensBounded w) := by
  unfold gensBounded
  infer_instance

/-- A sample pending adjust-mode Timeout used to witness C5. -/
def sampleTimeoutC5 : TimeoutInternal :=
  { options :=
      { timeMillis := 100, recurring := false, key := "k",
        bucketKey := DEFAULT_BUCKET_KEY, overwriteKey := false,
        ignorePauseDelay := false },
    expiration := 100, state := TState.pending, callback := 0, capturedGen := 0 }

/-- A sample pending Timeout used to witness C9. -/
def sampleTimeoutC9 : TimeoutInternal :=
  { options :=
      { timeMillis := 250, recurring := false, key := "q",
        bucketKey := DEFAULT_BUCKET_KEY, overwriteKey := false,
        ignorePauseDelay := false },
    expiration := 250, state := TState.pending, callback := 1, capturedGen := 0 }

/-- A world holding one Timeout under explicit key "k" in bucket "b",
used to witness C7. -/
def occupiedWorldC7 : World :=
  (Scheduler.add (Scheduler.construct 10 true 0) 3
    (AddArg.cfg { timeMillis := some 40, key := some "k", bucketKey := some "b" }) 0).1

/-- The colliding options used to witness C7. -/
def optsC7 : TimeoutOptionsArg :=
  { timeMillis := some 99, key := some "k", bucketKey := some "b" }

/-- Operations an external caller can perform on a scheduler world (used
to quantify over arbitrary lifetimes). -/
inductive SchedulerOp where
  | opStart (now : Int)
  | opStop
  | opPause (ov : Option Bool) (now : Int)
  | opResume (ov : Option Bool) (now : Int)
  | opTick (now : Int)
  | opAdd (cb : Nat) (arg : AddArg) (now : Int)
  | opTimeoutPause (tid : Nat) (ov : Option Bool) (now : Int)
  | opTimeoutResume (tid : Nat) (ov : Option Bool) (now : Int)
  | opTimeoutCancel (tid : Nat)
deriving DecidableEq, Repr

def applyOp (w : World) : SchedulerOp → World
  | .opStart now => Scheduler.start w now
  | .opStop => Scheduler.stop w
  | .opPause ov now => Scheduler.pause w ov now
  | .opResume ov now => Scheduler.resume w ov now
  | .opTick now => (runExpiredCallbacks w now).1
  | .opAdd cb arg now => (Scheduler.add w cb arg now).1
  | .opTimeoutPause tid ov now => timeoutPause w tid ov now
  | .opTimeoutResume tid ov now => timeoutResume w tid ov now
  | .opTimeoutCancel tid => timeoutCancel w tid

def applyOps (w : World) (ops : List SchedulerOp) : World :=
  ops.foldl applyOp w

/-- The default key `add` would assign from options o in world w. -/
def assignedKey (w : World) (o : TimeoutOptionsArg) : String :=
  (resolveKey o.key w.sched.idCounter).1

/-- Nodup structure of the live buckets map: bucket keys are unique and so
are the timeout keys within each bucket. -/
def nodupLive (w : World) : Prop :=
  ((liveMap w).map Prod.fst).Nodup ∧ ∀ p ∈ liveMap w, (p.2.map Prod.fst).Nodup

/-- Sweep well-formedness: the live timeout ids are distinct, every bucket
entry points at a heap timeout whose stored options match its position and
whose captured buckets map is the live one, and the live map has unique
keys at both levels.  All of this holds in every world reachable from the
constructor. -/
def sweepWF (w : World) : Bool :=
  decide ((allLiveTids w).Nodup) &&
  ((liveMap w).all fun p => p.2.all fun q =>
    match lookupA w.timeouts q.2 with
    | some t' => t'.options.bucketKey == p.1 && t'.options.key == q.1 &&
        t'.capturedGen == w.sched.liveGen
    | none => false) &&
  decide (((liveMap w).map Prod.fst).Nodup) &&
  ((liveMap w).all fun p => decide ((p.2.map Prod.fst).Nodup))

/-- A started scheduler holding a one-shot Timeout "a" (5 ms) and a
recurring Timeout "b" (50 ms), both added at time 0; used to witness C4. -/
def sweepWorldC4 : World :=
  (Scheduler.add
    (Scheduler.add (Scheduler.construct 10 true 0) 1
      (AddArg.cfg { timeMillis := some 5, key := some "a" }) 0).1 2
    (AddArg.cfg { timeMillis := some 50, key := some "b", recurring := true }) 0).1

/-- The heap object of Timeout "a" in `sweepWorldC4`. -/
def sweepTimeoutC4 : TimeoutInternal :=
  { options :=
      { timeMillis := 5, recurring := false, key := "a",
        bucketKey := DEFAULT_BUCKET_KEY, overwriteKey := false,
        ignorePauseDelay := false },
    expiration := 5, state := TState.pending, callback := 1, capturedGen := 0 }

/-! Basic lemmas about the association-list operations. -/

theorem lookupA_insertA_self {α β : Type} [DecidableEq α] (l : List (α × β)) (k : α) (v : β) :
    lookupA (insertA l k v) k = some v := by
  induction l with
  | nil => simp [insertA, lookupA]
  | cons p t ih =>
    obtain ⟨a, b⟩ := p
    by_cases h : a = k
    · simp [insertA, lookupA, h]
    · simp [insertA, lookupA, h, ih]

theorem lookupA_insertA_ne {α β : Type} [DecidableEq α] (l : List (α × β)) (k k' : α) (v : β)
    (h : k' ≠ k) : lookupA (insertA l k v) k' = lookupA l k' := by
  induction l with
  | nil => simp [insertA, lookupA, Ne.symm h]
  | cons p t ih =>
    obtain ⟨a, b⟩ := p
    by_cases ha : a = k
    · subst ha
      simp [insertA, lookupA, Ne.symm h]
    · simp [insertA, lookupA, ha, ih]

theorem lookupA_eraseA_ne {α β : Type} [DecidableEq α] (l : List (α × β)) (k k' : α)
    (h : k' ≠ k) : lookupA (eraseA l k) k' = lookupA l k' := by
  induction l with
  | nil => simp [eraseA, lookupA]
  | cons p t ih =>
    obtain ⟨a, b⟩ := p
    by_cases ha : a = k
    · subst ha
      simp [eraseA, lookupA, Ne.symm h]
    · simp [eraseA, lookupA, ha, ih]

theorem lookupA_eraseA_self {α β : Type} [DecidableEq α] (l : List (α × β)) (k : α)
    (h : (l.map Prod.fst).Nodup) : lookupA (eraseA l k) k = none := by
  induction l with
  | nil => simp [eraseA, lookupA]
  | cons p t ih =>
    obtain ⟨a, b⟩ := p
    simp only [List.map_cons, List.nodup_cons] at h
    by_cases ha : a = k
    · subst ha
      cases hlk : lookupA t a with
      | none => simp [eraseA, hlk]
      | some v =>
        exfalso
        have : a ∈ t.map Prod.fst := by
          clear ih h
          induction t with
          | nil => simp [lookupA] at hlk
          | cons q s ihq =>
            obtain ⟨c, d⟩ := q
            by_cases hc : c = a
            · simp [hc]
            · simp only [lookupA, hc, if_false] at hlk
              simp [ihq hlk]
        exact h.1 this
    · simp [eraseA, lookupA, ha, ih h.2]

theorem lookupA_mem {α β : Type} [DecidableEq α] (l : List (α × β)) (k : α) (v : β)
    (h : lookupA l k = some v) : (k, v) ∈ l := by
  induction l with
  | nil => simp [lookupA] at h
  | cons p t ih =>
    obtain ⟨a, b⟩ := p
    by_cases ha : a = k
    · subst ha
      simp [lookupA] at h
      simp [h]
    · simp only [lookupA, ha, if_false] at h
      simp [ih h]

theorem mem_lookupA {α β : Type} [DecidableEq α] (l : List (α × β)) (k : α) (v : β)
    (hnd : (l.map Prod.fst).Nodup) (h : (k, v) ∈ l) : lookupA l k = some v := by
  induction l with
  | nil => simp at h
  | cons p t ih =>
    obtain ⟨a, b⟩ := p
    simp only [List.map_cons, List.nodup_cons] at hnd
    rcases List.mem_cons.mp h with h1 | h2
    · cases h1
      simp [lookupA]
    · have hak : a ≠ k := by
        intro hak
        subst hak
        exact hnd.1 (List.mem_map.mpr ⟨(a, v), h2, rfl⟩)
      simp [lookupA, hak, ih hnd.2 h2]

/-! Lemmas about the decimal representation used for default keys. -/

theorem natToChars_ne_nil (n : Nat) : natToChars n ≠ [] := by
  unfold natToChars
  split
  · simp
  · simp

theorem natToString_ne_empty (n : Nat) : natToString n ≠ "" := by
  intro h
  have hl := congrArg String.data h
  simp only [natToString] at hl
  exact natToChars_ne_nil n hl

theorem digitChar_inj : ∀ a < 10, ∀ b < 10, Nat.digitChar a = Nat.digitChar b → a = b := by
  decide

theorem snoc_inj {α : Type} {l1 l2 : List α} {x y : α} (h : l1 ++ [x] = l2 ++ [y]) :
    l1 = l2 ∧ x = y := by
  have h' := congrArg List.reverse h
  simp only [List.reverse_append, List.reverse_singleton, List.singleton_append,
    List.cons.injEq] at h'
  exact ⟨List.reverse_injective h'.2, h'.1⟩

theorem natToChars_lt (n : Nat) (h : n < 10) : natToChars n = [Nat.digitChar n] := by
  unfold natToChars
  simp [h]

theorem natToChars_ge (n : Nat) (h : ¬ n < 10) :
    natToChars n = natToChars (n / 10) ++ [Nat.digitChar (n % 10)] := by
  conv_lhs => unfold natToChars
  simp [h]

theorem natToChars_inj : ∀ a b : Nat, natToChars a = natToChars b → a = b := by
  intro a
  induction a using Nat.strong_induction_on with
  | _ a ih =>
    intro b h
    by_cases ha : a < 10 <;> by_cases hb : b < 10
    · rw [natToChars_lt a ha, natToChars_lt b hb] at h
      simp only [List.cons.injEq, and_true] at h
      exact digitChar_inj a ha b hb h
    · rw [natToChars_lt a ha, natToChars_ge b hb] at h
      exfalso
      have hlen := congrArg List.length h
      simp only [List.length_singleton, List.length_append] at hlen
      exact natToChars_ne_nil (b / 10) (List.eq_nil_of_length_eq_zero (by omega))
    · rw [natToChars_ge a ha, natToChars_lt b hb] at h
      exfalso
      have hlen := congrArg List.length h
      simp only [List.length_singleton, List.length_append] at hlen
      exact natToChars_ne_nil (a / 10) (List.eq_nil_of_length_eq_zero (by omega))
    · rw [natToChars_ge a ha, natToChars_ge b hb] at h
      obtain ⟨h1, h2⟩ := snoc_inj h
      have hdiv : a / 10 = b / 10 := ih (a / 10) (Nat.div_lt_self (by omega) (by omega)) _ h1
      have hmod : a % 10 = b % 10 :=
        digitChar_inj _ (Nat.mod_lt _ (by omega)) _ (Nat.mod_lt _ (by omega)) h2
      omega

theorem natToString_inj {a b : Nat} (h : natToString a = natToString b) : a = b :=
  natToChars_inj a b (congrArg String.data h)

/-! Claim C5 — pause in adjust mode followed by resume in adjust mode
restores exactly the remaining time, measured from resume time. -/

/-- C5: every pending Timeout paused at time t1 with effective ignore-delay
flag false (adjust mode) and resumed at time t2 with effective flag false is
pending afterwards, and its expiration equals
(expiration before pause) - t1 + t2 — exactly the remaining time it had at
the moment of pausing, measured from resume time. -/
theorem pause_resume_adjust_preserves_remaining (t : TimeoutInternal)
    (ov1 ov2 : Option Bool) (t1 t2 : Int)
    (hp : t.state = TState.pending)
    (h1 : adjustFlag ov1 t.options.ignorePauseDelay = true)
    (h2 : adjustFlag ov2 t.options.ignorePauseDelay = true) :
    ((t.pause ov1 t1).resume ov2 t2).state = TState.pending ∧
    ((t.pause ov1 t1).resume ov2 t2).expiration = t.expiration - t1 + t2 := by
  unfold TimeoutInternal.pause TimeoutInternal.resume
  simp [hp, h1, h2]

theorem pause_resume_adjust_preserves_remaining_witness :
    (sampleTimeoutC5.state = TState.pending ∧
      adjustFlag none sampleTimeoutC5.options.ignorePauseDelay = true ∧
      adjustFlag (some false) sampleTimeoutC5.options.ignorePauseDelay = true) ∧
    (((sampleTimeoutC5.pause none 30).resume (some false) 50).state = TState.pending ∧
      ((sampleTimeoutC5.pause none 30).resume (some false) 50).expiration =
        sampleTimeoutC5.expiration - 30 + 50) :=
  ⟨⟨rfl, rfl, rfl⟩,
    pause_resume_adjust_preserves_remaining sampleTimeoutC5 none (some false) 30 50
      rfl rfl rfl⟩

/-! Claim C9 — remainingTime is the literal expiration - now, regardless of
state; while paused in adjust mode the stored value is a duration, so the
returned number is not a time-to-fire. -/

/-- C9: for every Timeout and observation time, remainingTime returns the
stored expiration minus the current time, whatever the state is; and for a
Timeout paused in adjust mode at time t1, the value returned at time now is
the remaining-duration captured at t1 minus now (a number relative to the
stored duration, not a meaningful time-to-fire). -/
theorem remainingTime_ignores_state :
    (∀ (t : TimeoutInternal) (now : Int), t.remainingTime now = t.expiration - now) ∧
    (∀ (t : TimeoutInternal) (t1 now : Int), t.state = TState.pending →
      (t.pause (some false) t1).remainingTime now = t.remainingTime t1 - now) := by
  constructor
  · intro t now
    rfl
  · intro t t1 now hp
    unfold TimeoutInternal.pause
    simp [hp, adjustFlag, TimeoutInternal.remainingTime]

theorem remainingTime_ignores_state_witness :
    sampleTimeoutC9.state = TState.pending ∧
    (sampleTimeoutC9.pause (some false) 30).remainingTime 80 =
      sampleTimeoutC9.remainingTime 30 - 80 :=
  ⟨rfl, remainingTime_ignores_state.2 sampleTimeoutC9 30 80 rfl⟩

/-! Claim C6 — input validation of add. -/

/-- Helper for C6: a valid argument always produces an ok result. -/
theorem add_ok_of_valid (w : World) (cb : Nat) (arg : AddArg) (now : Int)
    (h : addInvalid arg = false) :
    ∃ tid, (Scheduler.add w cb arg now).2 = Except.ok tid := by
  unfold Scheduler.add
  rw [if_neg]
  · dsimp only
    split
    · split
      · exact ⟨_, rfl⟩
      · exact ⟨_, rfl⟩
    · exact ⟨_, rfl⟩
  · simp [h]

/-- C6: Scheduler.add errors if and only if the second argument is
nullish, or is a config object lacking timeMillis; a bare number n is
treated exactly as a config with timeMillis n; and when the error is
raised the world (buckets, key counter, heap) is unchanged. -/
theorem add_validation (w : World) (cb : Nat) (arg : AddArg) (now : Int) :
    ((∃ msg, (Scheduler.add w cb arg now).2 = Except.error msg) ↔
      (arg = AddArg.nullish ∨ ∃ o, arg = AddArg.cfg o ∧ o.timeMillis = none)) ∧
    ((∃ msg, (Scheduler.add w cb arg now).2 = Except.error msg) →
      (Scheduler.add w cb arg now).1 = w) ∧
    (∀ n : Int, Scheduler.add w cb (AddArg.num n) now =
      Scheduler.add w cb (AddArg.cfg { timeMillis := some n }) now) := by
  refine ⟨?_, ?_, ?_⟩
  · cases arg with
    | nullish =>
      constructor
      · intro _
        exact Or.inl rfl
      · intro _
        exact ⟨"Cannot add callback without timeout.", rfl⟩
    | num n =>
      constructor
      · intro ⟨msg, hmsg⟩
        obtain ⟨tid, htid⟩ := add_ok_of_valid w cb (AddArg.num n) now rfl
        rw [htid] at hmsg
        exact absurd hmsg (by simp)
      · intro hor
        rcases hor with h | ⟨o, ho, _⟩
        · exact absurd h (by simp)
        · exact absurd ho (by simp)
    | cfg o =>
      cases hmt : o.timeMillis with
      | none =>
        constructor
        · intro _
          exact Or.inr ⟨o, rfl, hmt⟩
        · intro _
          have hinv : addInvalid (AddArg.cfg o) = true := by simp [addInvalid, hmt]
          exact ⟨"Cannot add callback without timeout.", by simp [Scheduler.add, hinv]⟩
      | some tm =>
        constructor
        · intro ⟨msg, hmsg⟩
          obtain ⟨tid, htid⟩ := add_ok_of_valid w cb (AddArg.cfg o) now
            (by simp [addInvalid, hmt])
          rw [htid] at hmsg
          exact absurd hmsg (by simp)
        · intro hor
          rcases hor with h | ⟨o', ho', hmt'⟩
          · exact absurd h (by simp)
          · have : o' = o := by
              have := congrArg (fun a => match a with
                | AddArg.cfg x => x
                | _ => o) ho'
              simpa using this.symm
            rw [this] at hmt'
            rw [hmt] at hmt'
            exact absurd hmt' (by simp)
  · intro ⟨msg, hmsg⟩
    by_cases hinv : addInvalid arg = true
    · simp [Scheduler.add, hinv]
    · obtain ⟨tid, htid⟩ := add_ok_of_valid w cb arg now (by simpa using hinv)
      rw [htid] at hmsg
      exact absurd hmsg (by simp)
  · intro n
    rfl

theorem add_validation_witness :
    ((∃ msg, (Scheduler.add (Scheduler.construct 10 true 0) 1 AddArg.nullish 0).2 =
        Except.error msg) ↔
      (AddArg.nullish = AddArg.nullish ∨
        ∃ o, AddArg.nullish = AddArg.cfg o ∧ o.timeMillis = none)) ∧
    ((∃ msg, (Scheduler.add (Scheduler.construct 10 true 0) 1 AddArg.nullish 0).2 =
        Except.error msg) →
      (Scheduler.add (Scheduler.construct 10 true 0) 1 AddArg.nullish 0).1 =
        Scheduler.construct 10 true 0) ∧
    (∀ n : Int, Scheduler.add (Scheduler.construct 10 true 0) 1 (AddArg.num n) 0 =
      Scheduler.add (Scheduler.construct 10 true 0) 1 (AddArg.cfg { timeMillis := some n }) 0) :=
  add_validation (Scheduler.construct 10 true 0) 1 AddArg.nullish 0

/-! Claim C10 — empty-string key or bucketKey are treated as unset. -/

/-- C10: an empty string supplied for key or bucketKey is treated as if the
field were unset (the add behaves identically), the key resolution never
produces an empty key (the counter string is nonempty), and the bucket
resolution never produces an empty bucket key — so no Timeout is registered
under an empty-string key or bucket. -/
theorem add_empty_string_defaults :
    (∀ (w : World) (cb : Nat) (o : TimeoutOptionsArg) (now : Int),
      Scheduler.add w cb (AddArg.cfg { o with key := some "" }) now =
        Scheduler.add w cb (AddArg.cfg { o with key := none }) now) ∧
    (∀ (w : World) (cb : Nat) (o : TimeoutOptionsArg) (now : Int),
      Scheduler.add w cb (AddArg.cfg { o with bucketKey := some "" }) now =
        Scheduler.add w cb (AddArg.cfg { o with bucketKey := none }) now) ∧
    (∀ (k : Option String) (c : Nat), (resolveKey k c).1 ≠ "") ∧
    (∀ bk : Option String, resolveBucketKey bk ≠ "") := by
  refine ⟨?_, ?_, ?_, ?_⟩
  · intro w cb o now
    simp [Scheduler.add, resolveKey, addInvalid]
  · intro w cb o now
    simp [Scheduler.add, resolveBucketKey, addInvalid]
  · intro k c
    cases k with
    | none => exact natToString_ne_empty c
    | some v =>
      by_cases hv : v = ""
      · simp [resolveKey, hv]
        exact natToString_ne_empty c
      · simp [resolveKey, hv]
  · intro bk
    cases bk with
    | none =>
      simp [resolveBucketKey, DEFAULT_BUCKET_KEY]
    | some v =>
      by_cases hv : v = ""
      · simp [resolveBucketKey, hv, DEFAULT_BUCKET_KEY]
      · simp [resolveBucketKey, hv]

theorem add_empty_string_defaults_witness :
    Scheduler.add (Scheduler.construct 5 true 0) 3
        (AddArg.cfg { ({ timeMillis := some 7 } : TimeoutOptionsArg) with key := some "" }) 2 =
      Scheduler.add (Scheduler.construct 5 true 0) 3
        (AddArg.cfg { ({ timeMillis := some 7 } : TimeoutOptionsArg) with key := none }) 2 :=
  add_empty_string_defaults.1 (Scheduler.construct 5 true 0) 3 { timeMillis := some 7 } 2

/-! Frame lemmas: which fields each operation can touch. -/

theorem start_maps (w : World) (now : Int) : (Scheduler.start w now).maps = w.maps := by
  unfold Scheduler.start INTERNAL_run
  split
  · split
    · rfl
    · rfl
  · rfl

theorem start_sched (w : World) (now : Int) :
    (Scheduler.start w now).sched.liveGen = w.sched.liveGen ∧
    (Scheduler.start w now).sched.idCounter = w.sched.idCounter ∧
    (Scheduler.start w now).timeouts = w.timeouts ∧
    (Scheduler.start w now).nextGen = w.nextGen ∧
    (Scheduler.start w now).nextTid = w.nextTid := by
  unfold Scheduler.start INTERNAL_run
  split
  · split
    · exact ⟨rfl, rfl, rfl, rfl, rfl⟩
    · exact ⟨rfl, rfl, rfl, rfl, rfl⟩
  · exact ⟨rfl, rfl, rfl, rfl, rfl⟩

theorem liveMap_start (w : World) (now : Int) :
    liveMap (Scheduler.start w now) = liveMap w := by
  unfold liveMap
  rw [start_maps, (start_sched w now).1]

theorem stop_scalars (w : World) :
    (Scheduler.stop w).sched.idCounter = w.sched.idCounter ∧
    (Scheduler.stop w).timeouts = w.timeouts ∧
    (Scheduler.stop w).nextTid = w.nextTid := by
  unfold Scheduler.stop
  split
  · exact ⟨rfl, rfl, rfl⟩
  · exact ⟨rfl, rfl, rfl⟩

theorem lookupA_append_right {α β : Type} [DecidableEq α] (l1 l2 : List (α × β)) (k : α)
    (h : ∀ p ∈ l1, p.1 ≠ k) : lookupA (l1 ++ l2) k = lookupA l2 k := by
  induction l1 with
  | nil => rfl
  | cons p t ih =>
    obtain ⟨a, b⟩ := p
    have ha : a ≠ k := h (a, b) (List.mem_cons_self _ _)
    simp only [List.cons_append, lookupA, ha, if_false]
    exact ih fun q hq => h q (List.mem_cons_of_mem _ hq)

/-- After a genuine stop, the live buckets map is the fresh empty object. -/
theorem liveMap_stop (w : World) (hg : ∀ p ∈ w.maps, p.1 < w.nextGen)
    (hs : w.sched.shutdown = false) : liveMap (Scheduler.stop w) = [] := by
  unfold Scheduler.stop liveMap
  rw [if_pos (by simp [hs])]
  simp only
  rw [lookupA_append_right _ _ _ (fun p hp => Nat.ne_of_lt (hg p hp))]
  simp [lookupA]

/-! Claim C3 — the default bucket exists at construction but is NOT
re-created by a stop()/start() cycle; it reappears only lazily on the next
add that targets it. -/

/-- C3 counterexample: with a scheduler constructed at time 0 with interval
10, the default bucket exists in the live buckets map at construction, but
after stop() followed by start() the live buckets map no longer contains
the default bucket key — so the claim that it exists again after a
stop()/start() cycle is false. -/
theorem default_bucket_absent_after_restart :
    lookupA (liveMap (Scheduler.construct 10 true 0)) DEFAULT_BUCKET_KEY = some [] ∧
    lookupA (liveMap (Scheduler.start (Scheduler.stop (Scheduler.construct 10 true 0)) 20))
      DEFAULT_BUCKET_KEY = none := by
  constructor
  · rfl
  · rfl

/-- C3 amended: the sentinel default bucket exists in the live buckets map
from the moment the Scheduler is constructed; after a stop()/start() cycle
the live buckets map is empty — the default bucket is not re-created by
start() — and it is re-created lazily by the next add that targets the
default bucket. -/
theorem default_bucket_at_construction_and_lazy (iv : Int) (b : Bool) (now : Int)
    (w : World) (now2 : Int) (w2 : World) (cb : Nat) (tm : Int) (now3 : Int)
    (hg : ∀ p ∈ w.maps, p.1 < w.nextGen)
    (hs : w.sched.shutdown = false)
    (h2 : liveMap w2 = []) :
    lookupA (liveMap (Scheduler.construct iv b now)) DEFAULT_BUCKET_KEY = some [] ∧
    liveMap (Scheduler.start (Scheduler.stop w) now2) = [] ∧
    (lookupA
      (liveMap (Scheduler.add w2 cb (AddArg.cfg { timeMillis := some tm }) now3).1)
      DEFAULT_BUCKET_KEY).isSome = true := by
  refine ⟨?_, ?_, ?_⟩
  · cases b
    · simp [Scheduler.construct, liveMap, lookupA]
    · simp [Scheduler.construct, liveMap_start, liveMap, lookupA]
  · rw [liveMap_start, liveMap_stop w hg hs]
  · have hbmap : ∀ sch : Scheduler, sch.liveGen = w2.sched.liveGen →
        (lookupA ({ w2 with sched := sch } : World).maps sch.liveGen).getD [] = [] := by
      intro sch hsch
      show (lookupA w2.maps sch.liveGen).getD [] = []
      rw [hsch]
      exact h2
    unfold Scheduler.add
    rw [if_neg (by simp [addInvalid])]
    simp only [resolveKey, resolveBucketKey]
    rw [hbmap _ rfl]
    simp only [lookupA, Option.getD_none]
    unfold liveMap
    simp only
    rw [lookupA_insertA_self]
    simp only [Option.getD_some]
    simp [insertA, lookupA]

theorem default_bucket_at_construction_and_lazy_witness :
    ((∀ p ∈ (Scheduler.construct 10 true 0).maps, p.1 < (Scheduler.construct 10 true 0).nextGen) ∧
      (Scheduler.construct 10 true 0).sched.shutdown = false ∧
      liveMap (Scheduler.start (Scheduler.stop (Scheduler.construct 10 true 0)) 20) = []) ∧
    (lookupA (liveMap (Scheduler.construct 7 true 0)) DEFAULT_BUCKET_KEY = some [] ∧
      liveMap (Scheduler.start (Scheduler.stop (Scheduler.construct 10 true 0)) 20) = [] ∧
      (lookupA
        (liveMap (Scheduler.add
          (Scheduler.start (Scheduler.stop (Scheduler.construct 10 true 0)) 20) 1
          (AddArg.cfg { timeMillis := some 5 }) 25).1)
        DEFAULT_BUCKET_KEY).isSome = true) :=
  ⟨⟨by decide, by decide, by decide⟩,
    default_bucket_at_construction_and_lazy 7 true 0 (Scheduler.construct 10 true 0) 20
      (Scheduler.start (Scheduler.stop (Scheduler.construct 10 true 0)) 20) 1 5 25
      (by decide) (by decide) (by decide)⟩

/-! Claim C1 — Scheduler.resume does not cascade its ignorePauseDelay
override: the source calls each Timeout's resume with no argument, while
Scheduler.pause does pass its override through.  This contradicts the
method's own documentation ("Optionally supply ignorePauseDelay to
override each Timeout's ignorePauseDelay setting"). -/

/-- C1: evaluation at the failing input.  A scheduler holds one pending
Timeout with its own ignorePauseDelay = true and absolute expiration 100.
Scheduler.pause(false) at time 30 cascades the override, pausing the
Timeout in adjust mode (stored remaining duration 70).  If
Scheduler.resume(false) at time 50 cascaded the same override, the Timeout
would resume in adjust mode with expiration 70 + 50 = 120 (as direct
timeoutResume with the override shows); instead the source calls resume()
with no argument, the Timeout falls back to its own flag, and the stored
value stays 70. -/
theorem scheduler_resume_drops_override :
    (getTimeout (Scheduler.pause (Scheduler.add (Scheduler.construct 10 true 0) 7
        (AddArg.cfg { timeMillis := some 100, key := some "k", ignorePauseDelay := true }) 0).1
        (some false) 30) 0).map TimeoutInternal.expiration = some 70 ∧
    (getTimeout (Scheduler.pause (Scheduler.add (Scheduler.construct 10 true 0) 7
        (AddArg.cfg { timeMillis := some 100, key := some "k", ignorePauseDelay := true }) 0).1
        (some false) 30) 0).map TimeoutInternal.state = some TState.paused ∧
    (getTimeout (Scheduler.resume (Scheduler.pause (Scheduler.add
        (Scheduler.construct 10 true 0) 7
        (AddArg.cfg { timeMillis := some 100, key := some "k", ignorePauseDelay := true }) 0).1
        (some false) 30) (some false) 50) 0).map TimeoutInternal.expiration = some 70 ∧
    (getTimeout (Scheduler.resume (Scheduler.pause (Scheduler.add
        (Scheduler.construct 10 true 0) 7
        (AddArg.cfg { timeMillis := some 100, key := some "k", ignorePauseDelay := true }) 0).1
        (some false) 30) (some false) 50) 0).map TimeoutInternal.state =
      some TState.pending ∧
    (getTimeout (timeoutResume (Scheduler.pause (Scheduler.add
        (Scheduler.construct 10 true 0) 7
        (AddArg.cfg { timeMillis := some 100, key := some "k", ignorePauseDelay := true }) 0).1
        (some false) 30) 0 (some false) 50) 0).map TimeoutInternal.expiration = some 120 := by
  refine ⟨rfl, rfl, rfl, rfl, rfl⟩

/-! Claim C2 — after stop() the held Timeout handles cannot reach the live
scheduler state any more (cancel only touches the detached buckets map, a
sweep fires nothing), but their pause/resume mutators are NOT observable
no-ops: they still flip the handle's own state and expiration. -/

/-- C2 counterexample: after add and stop, calling pause on the held handle
changes its observable state from pending to paused (and changes the world),
refuting the claim that every mutator of a held handle is a no-op that
observably changes nothing. -/
theorem stopped_handle_pause_mutates :
    (getTimeout (Scheduler.stop (Scheduler.add (Scheduler.construct 10 true 0) 7
        (AddArg.cfg { timeMillis := some 100, key := some "k" }) 0).1) 0).map
      TimeoutInternal.state = some TState.pending ∧
    (getTimeout (timeoutPause (Scheduler.stop (Scheduler.add
        (Scheduler.construct 10 true 0) 7
        (AddArg.cfg { timeMillis := some 100, key := some "k" }) 0).1) 0 none 5) 0).map
      TimeoutInternal.state = some TState.paused ∧
    timeoutPause (Scheduler.stop (Scheduler.add (Scheduler.construct 10 true 0) 7
        (AddArg.cfg { timeMillis := some 100, key := some "k" }) 0).1) 0 none 5 ≠
      Scheduler.stop (Scheduler.add (Scheduler.construct 10 true 0) 7
        (AddArg.cfg { timeMillis := some 100, key := some "k" }) 0).1 := by
  refine ⟨rfl, rfl, by decide⟩

theorem timeoutPause_frame (w : World) (tid : Nat) (ov : Option Bool) (now : Int) :
    (timeoutPause w tid ov now).maps = w.maps ∧
    (timeoutPause w tid ov now).sched = w.sched := by
  unfold timeoutPause
  split
  · exact ⟨rfl, rfl⟩
  · exact ⟨rfl, rfl⟩

theorem timeoutResume_frame (w : World) (tid : Nat) (ov : Option Bool) (now : Int) :
    (timeoutResume w tid ov now).maps = w.maps ∧
    (timeoutResume w tid ov now).sched = w.sched := by
  unfold timeoutResume
  split
  · exact ⟨rfl, rfl⟩
  · exact ⟨rfl, rfl⟩

theorem liveMap_congr {w w' : World} (hm : w'.maps = w.maps)
    (hg : w'.sched.liveGen = w.sched.liveGen) : liveMap w' = liveMap w := by
  unfold liveMap
  rw [hm, hg]

/-- Cancel through a handle whose captured buckets map is not the live one
leaves the live buckets map unchanged. -/
theorem liveMap_timeoutCancel (w : World) (tid : Nat)
    (h : ∀ t, lookupA w.timeouts tid = some t → t.capturedGen ≠ w.sched.liveGen) :
    liveMap (timeoutCancel w tid) = liveMap w := by
  unfold timeoutCancel
  cases ht : lookupA w.timeouts tid with
  | none => rfl
  | some t =>
    simp only
    cases hm : lookupA w.maps t.capturedGen with
    | none => rfl
    | some bmap =>
      simp only
      cases hb : lookupA bmap t.options.bucketKey with
      | none => rfl
      | some bucket =>
        simp only
        unfold liveMap
        simp only
        rw [lookupA_insertA_ne _ _ _ _ (Ne.symm (h t ht))]

theorem allLiveTids_of_empty {w : World} (h : liveMap w = []) : allLiveTids w = [] := by
  unfold allLiveTids
  rw [h]
  rfl

theorem pause_state_of_pending (t : TimeoutInternal) (ov : Option Bool) (now : Int)
    (hp : t.state = TState.pending) : (t.pause ov now).state = TState.paused := by
  unfold TimeoutInternal.pause
  rw [if_pos hp]
  split
  · rfl
  · rfl

/-- C2 amended: after a genuine stop(), held Timeout handles are detached
from the scheduler: the live buckets map is empty and stays empty under any
handle mutator (cancel mutates only the detached buckets map), and a sweep
fires no callbacks — so a held Timeout can never fire again and the
scheduler's live state is unreachable from the handle; however pause (and
symmetrically resume) is not an observational no-op on the handle itself:
on a pending handle it still sets the state to paused (and, in adjust mode,
rewrites the stored expiration). -/
theorem stopped_handles_detached (w : World) (tid : Nat) (ov : Option Bool)
    (t1 t2 t3 : Int)
    (hg : gensBounded w)
    (hs : w.sched.shutdown = false) :
    liveMap (Scheduler.stop w) = [] ∧
    liveMap (timeoutCancel (Scheduler.stop w) tid) = [] ∧
    liveMap (timeoutPause (Scheduler.stop w) tid ov t1) = [] ∧
    liveMap (timeoutResume (Scheduler.stop w) tid ov t2) = [] ∧
    (runExpiredCallbacks (Scheduler.stop w) t3).2 = [] ∧
    (∀ t, getTimeout (Scheduler.stop w) tid = some t → t.state = TState.pending →
      getTimeout (timeoutPause (Scheduler.stop w) tid ov t1) tid = some (t.pause ov t1) ∧
      (t.pause ov t1).state = TState.paused) := by
  have hempty : liveMap (Scheduler.stop w) = [] := liveMap_stop w hg.1 hs
  have hgen : (Scheduler.stop w).sched.liveGen = w.nextGen := by
    unfold Scheduler.stop
    rw [if_pos (by simp [hs])]
  have htimeouts : (Scheduler.stop w).timeouts = w.timeouts := (stop_scalars w).2.1
  refine ⟨hempty, ?_, ?_, ?_, ?_, ?_⟩
  · rw [liveMap_timeoutCancel _ _ ?_]
    · exact hempty
    · intro t ht
      rw [htimeouts] at ht
      rw [hgen]
      exact Nat.ne_of_lt (hg.2 (tid, t) (lookupA_mem _ _ _ ht))
  · rw [liveMap_congr (timeoutPause_frame _ tid ov t1).1
      (congrArg Scheduler.liveGen (timeoutPause_frame _ tid ov t1).2)]
    exact hempty
  · rw [liveMap_congr (timeoutResume_frame _ tid ov t2).1
      (congrArg Scheduler.liveGen (timeoutResume_frame _ tid ov t2).2)]
    exact hempty
  · unfold runExpiredCallbacks
    rw [allLiveTids_of_empty hempty]
    rfl
  · intro t ht hp
    constructor
    · unfold timeoutPause
      unfold getTimeout at ht
      rw [ht]
      exact lookupA_insertA_self _ _ _
    · exact pause_state_of_pending t ov t1 hp

theorem stopped_handles_detached_witness :
    (gensBounded (Scheduler.add (Scheduler.construct 10 true 0) 7
        (AddArg.cfg { timeMillis := some 100, key := some "k" }) 0).1 ∧
      (Scheduler.add (Scheduler.construct 10 true 0) 7
        (AddArg.cfg { timeMillis := some 100, key := some "k" }) 0).1.sched.shutdown =
        false) ∧
    (liveMap (Scheduler.stop (Scheduler.add (Scheduler.construct 10 true 0) 7
        (AddArg.cfg { timeMillis := some 100, key := some "k" }) 0).1) = [] ∧
      liveMap (timeoutCancel (Scheduler.stop (Scheduler.add
        (Scheduler.construct 10 true 0) 7
        (AddArg.cfg { timeMillis := some 100, key := some "k" }) 0).1) 0) = [] ∧
      liveMap (timeoutPause (Scheduler.stop (Scheduler.add
        (Scheduler.construct 10 true 0) 7
        (AddArg.cfg { timeMillis := some 100, key := some "k" }) 0).1) 0 none 5) = [] ∧
      liveMap (timeoutResume (Scheduler.stop (Scheduler.add
        (Scheduler.construct 10 true 0) 7
        (AddArg.cfg { timeMillis := some 100, key := some "k" }) 0).1) 0 none 6) = [] ∧
      (runExpiredCallbacks (Scheduler.stop (Scheduler.add
        (Scheduler.construct 10 true 0) 7
        (AddArg.cfg { timeMillis := some 100, key := some "k" }) 0).1) 200).2 = [] ∧
      (∀ t, getTimeout (Scheduler.stop (Scheduler.add
          (Scheduler.construct 10 true 0) 7
          (AddArg.cfg { timeMillis := some 100, key := some "k" }) 0).1) 0 = some t →
        t.state = TState.pending →
        getTimeout (timeoutPause (Scheduler.stop (Scheduler.add
          (Scheduler.construct 10 true 0) 7
          (AddArg.cfg { timeMillis := some 100, key := some "k" }) 0).1) 0 none 5) 0 =
          some (t.pause none 5) ∧
        (t.pause none 5).state = TState.paused)) :=
  ⟨⟨by decide, by decide⟩,
    stopped_handles_detached (Scheduler.add (Scheduler.construct 10 true 0) 7
      (AddArg.cfg { timeMillis := some 100, key := some "k" }) 0).1 0 none 5 6 200
      (by decide) (by decide)⟩

/-! Claim C7 — first registration wins: an add into an occupied slot with
overwriteKey false returns the existing Timeout and stores nothing. -/

/-- C7: for every add whose resolved (bucketKey, key) slot is already
occupied and whose overwriteKey is false, the pre-existing Timeout id is
returned, every buckets map is unchanged (bucket contents not modified),
and the newly supplied action/config is never stored (the timeout heap and
the id allocator are unchanged), so only the first registered action can
ever fire. -/
theorem add_no_overwrite_keeps_existing (w : World) (cb : Nat) (o : TimeoutOptionsArg)
    (now : Int) (etid : Nat)
    (hval : o.timeMillis.isSome = true)
    (hov : o.overwriteKey = false)
    (hocc : getLive w (resolveBucketKey o.bucketKey)
      (resolveKey o.key w.sched.idCounter).1 = some etid) :
    (Scheduler.add w cb (AddArg.cfg o) now).2 = Except.ok etid ∧
    (Scheduler.add w cb (AddArg.cfg o) now).1.maps = w.maps ∧
    (Scheduler.add w cb (AddArg.cfg o) now).1.timeouts = w.timeouts ∧
    (Scheduler.add w cb (AddArg.cfg o) now).1.nextTid = w.nextTid := by
  have hinv : ¬ addInvalid (AddArg.cfg o) = true := by
    simp only [addInvalid, Option.isNone_iff_eq_none]
    intro hc
    rw [hc] at hval
    simp at hval
  unfold getLive liveMap at hocc
  cases hb : lookupA ((lookupA w.maps w.sched.liveGen).getD [])
      (resolveBucketKey o.bucketKey) with
  | none =>
    rw [hb] at hocc
    simp [lookupA] at hocc
  | some bucket =>
    rw [hb] at hocc
    simp only [Option.getD_some] at hocc
    unfold Scheduler.add
    rw [if_neg hinv]
    dsimp only
    rw [hb]
    simp only [Option.getD_some]
    rw [hocc]
    dsimp only
    rw [hov]
    simp only [if_neg Bool.false_ne_true]
    exact ⟨trivial, trivial, trivial, trivial⟩

theorem add_no_overwrite_keeps_existing_witness :
    ((optsC7.timeMillis.isSome = true) ∧
      (optsC7.overwriteKey = false) ∧
      getLive occupiedWorldC7 (resolveBucketKey optsC7.bucketKey)
        (resolveKey optsC7.key occupiedWorldC7.sched.idCounter).1 = some 0) ∧
    ((Scheduler.add occupiedWorldC7 5 (AddArg.cfg optsC7) 8).2 = Except.ok 0 ∧
      (Scheduler.add occupiedWorldC7 5 (AddArg.cfg optsC7) 8).1.maps =
        occupiedWorldC7.maps ∧
      (Scheduler.add occupiedWorldC7 5 (AddArg.cfg optsC7) 8).1.timeouts =
        occupiedWorldC7.timeouts ∧
      (Scheduler.add occupiedWorldC7 5 (AddArg.cfg optsC7) 8).1.nextTid =
        occupiedWorldC7.nextTid) :=
  ⟨⟨by decide, by decide, by decide⟩,
    add_no_overwrite_keeps_existing occupiedWorldC7 5 optsC7 8 0
      (by decide) (by decide) (by decide)⟩

/-! Claim C8 — the auto-increment key counter is monotone over the
scheduler's lifetime, not reset by stop()/start(), so default keys are
always distinct. -/

theorem timeoutCancel_frame (w : World) (tid : Nat) :
    (timeoutCancel w tid).sched = w.sched ∧
    (timeoutCancel w tid).timeouts = w.timeouts := by
  unfold timeoutCancel
  split
  · exact ⟨rfl, rfl⟩
  · split
    · exact ⟨rfl, rfl⟩
    · split
      · exact ⟨rfl, rfl⟩
      · exact ⟨rfl, rfl⟩

theorem sweepStep_sched (now : Int) (acc : World × List Nat) (tid : Nat) :
    (sweepStep now acc tid).1.sched = acc.1.sched := by
  unfold sweepStep
  dsimp only
  split
  · rfl
  · split
    · split
      · rfl
      · exact (timeoutCancel_frame _ _).1
    · rfl

theorem foldl_sweepStep_sched (now : Int) (l : List Nat) (acc : World × List Nat) :
    (l.foldl (sweepStep now) acc).1.sched = acc.1.sched := by
  induction l generalizing acc with
  | nil => rfl
  | cons x xs ih => rw [List.foldl_cons, ih, sweepStep_sched]

theorem foldl_timeoutPause_sched (ov : Option Bool) (now : Int) (l : List Nat) (w : World) :
    (l.foldl (fun a tid => timeoutPause a tid ov now) w).sched = w.sched := by
  induction l generalizing w with
  | nil => rfl
  | cons x xs ih => rw [List.foldl_cons, ih, (timeoutPause_frame _ _ _ _).2]

theorem foldl_timeoutResume_sched (ov : Option Bool) (now : Int) (l : List Nat) (w : World) :
    (l.foldl (fun a tid => timeoutResume a tid ov now) w).sched = w.sched := by
  induction l generalizing w with
  | nil => rfl
  | cons x xs ih => rw [List.foldl_cons, ih, (timeoutResume_frame _ _ _ _).2]

theorem INTERNAL_run_idCounter (w : World) (t n : Int) :
    (INTERNAL_run w t n).sched.idCounter = w.sched.idCounter := by
  unfold INTERNAL_run
  split
  · rfl
  · rfl

theorem resolveKey_counter_ge (k : Option String) (c : Nat) : c ≤ (resolveKey k c).2 := by
  cases k with
  | none => exact Nat.le_succ c
  | some v =>
    by_cases hv : v = ""
    · simp [resolveKey, hv]
    · simp [resolveKey, hv]

theorem add_idCounter_ge (w : World) (cb : Nat) (arg : AddArg) (now : Int) :
    w.sched.idCounter ≤ (Scheduler.add w cb arg now).1.sched.idCounter := by
  unfold Scheduler.add
  split
  · exact Nat.le_refl _
  · dsimp only
    split
    · split
      · split
        · exact resolveKey_counter_ge _ _
        · exact resolveKey_counter_ge _ _
      · split
        · exact resolveKey_counter_ge _ _
        · exact resolveKey_counter_ge _ _
    · split
      · exact resolveKey_counter_ge _ _
      · exact resolveKey_counter_ge _ _

theorem schedulerPause_idCounter (w : World) (ov : Option Bool) (now : Int) :
    (Scheduler.pause w ov now).sched.idCounter = w.sched.idCounter := by
  unfold Scheduler.pause
  split
  · rw [foldl_timeoutPause_sched]
  · rfl

theorem schedulerResume_idCounter (w : World) (ov : Option Bool) (now : Int) :
    (Scheduler.resume w ov now).sched.idCounter = w.sched.idCounter := by
  unfold Scheduler.resume
  split
  · rw [foldl_timeoutResume_sched]
    rw [INTERNAL_run_idCounter]
  · rfl

theorem applyOp_idCounter_ge (w : World) (op : SchedulerOp) :
    w.sched.idCounter ≤ (applyOp w op).sched.idCounter := by
  cases op with
  | opStart now => exact Nat.le_of_eq ((start_sched w now).2.1).symm
  | opStop => exact Nat.le_of_eq ((stop_scalars w).1).symm
  | opPause ov now => exact Nat.le_of_eq (schedulerPause_idCounter w ov now).symm
  | opResume ov now => exact Nat.le_of_eq (schedulerResume_idCounter w ov now).symm
  | opTick now =>
    show w.sched.idCounter ≤ (INTERNAL_run _ _ _).sched.idCounter
    rw [INTERNAL_run_idCounter, foldl_sweepStep_sched]
  | opAdd cb arg now => exact add_idCounter_ge w cb arg now
  | opTimeoutPause tid ov now =>
    exact Nat.le_of_eq (congrArg Scheduler.idCounter (timeoutPause_frame w tid ov now).2).symm
  | opTimeoutResume tid ov now =>
    exact Nat.le_of_eq (congrArg Scheduler.idCounter (timeoutResume_frame w tid ov now).2).symm
  | opTimeoutCancel tid =>
    exact Nat.le_of_eq (congrArg Scheduler.idCounter (timeoutCancel_frame w tid).1).symm

theorem applyOps_idCounter_ge (w : World) (ops : List SchedulerOp) :
    w.sched.idCounter ≤ (applyOps w ops).sched.idCounter := by
  induction ops generalizing w with
  | nil => exact Nat.le_refl _
  | cons op rest ih =>
    exact Nat.le_trans (applyOp_idCounter_ge w op) (ih (applyOp w op))

theorem add_keyNone_idCounter (w : World) (cb : Nat) (o : TimeoutOptionsArg) (now : Int)
    (hk : o.key = none) (hval : o.timeMillis.isSome = true) :
    (Scheduler.add w cb (AddArg.cfg o) now).1.sched.idCounter = w.sched.idCounter + 1 ∧
    assignedKey w o = natToString w.sched.idCounter := by
  have hinv : ¬ addInvalid (AddArg.cfg o) = true := by
    simp only [addInvalid, Option.isNone_iff_eq_none]
    intro hc
    rw [hc] at hval
    simp at hval
  constructor
  · unfold Scheduler.add
    rw [if_neg hinv]
    dsimp only
    rw [hk]
    split
    · split
      · split
        · rfl
        · rfl
      · split
        · rfl
        · rfl
    · split
      · rfl
      · rfl
  · unfold assignedKey
    rw [hk]
    rfl

/-- C8: the key counter is unchanged by stop() and by start(); it is
monotone under every operation a caller can perform (so monotone for the
scheduler's entire lifetime); and two add calls that omit the key — with
any sequence of operations, including stop()/start() cycles, between them —
are assigned distinct default keys. -/
theorem idCounter_monotone_default_keys_distinct :
    (∀ w : World, (Scheduler.stop w).sched.idCounter = w.sched.idCounter) ∧
    (∀ (w : World) (now : Int),
      (Scheduler.start w now).sched.idCounter = w.sched.idCounter) ∧
    (∀ (w : World) (op : SchedulerOp),
      w.sched.idCounter ≤ (applyOp w op).sched.idCounter) ∧
    (∀ (w : World) (ops : List SchedulerOp),
      w.sched.idCounter ≤ (applyOps w ops).sched.idCounter) ∧
    (∀ (w : World) (cb1 : Nat) (o1 o2 : TimeoutOptionsArg) (now1 : Int)
      (ops : List SchedulerOp), o1.key = none → o2.key = none →
      o1.timeMillis.isSome = true →
      assignedKey w o1 ≠
        assignedKey (applyOps (Scheduler.add w cb1 (AddArg.cfg o1) now1).1 ops) o2) := by
  refine ⟨fun w => (stop_scalars w).1, fun w now => (start_sched w now).2.1,
    applyOp_idCounter_ge, applyOps_idCounter_ge, ?_⟩
  intro w cb1 o1 o2 now1 ops hk1 hk2 hval1 heq
  have h1 : assignedKey w o1 = natToString w.sched.idCounter :=
    (add_keyNone_idCounter w cb1 o1 now1 hk1 hval1).2
  have h2 : assignedKey (applyOps (Scheduler.add w cb1 (AddArg.cfg o1) now1).1 ops) o2 =
      natToString (applyOps (Scheduler.add w cb1 (AddArg.cfg o1) now1).1 ops).sched.idCounter := by
    unfold assignedKey
    rw [hk2]
    rfl
  have hge : w.sched.idCounter + 1 ≤
      (applyOps (Scheduler.add w cb1 (AddArg.cfg o1) now1).1 ops).sched.idCounter := by
    have := applyOps_idCounter_ge (Scheduler.add w cb1 (AddArg.cfg o1) now1).1 ops
    rw [(add_keyNone_idCounter w cb1 o1 now1 hk1 hval1).1] at this
    exact this
  rw [h1, h2] at heq
  have := natToString_inj heq
  omega

theorem idCounter_monotone_default_keys_distinct_witness :
    ((({ timeMillis := some 50 } : TimeoutOptionsArg).key = none ∧
      ({ timeMillis := some 60 } : TimeoutOptionsArg).key = none ∧
      ({ timeMillis := some 50 } : TimeoutOptionsArg).timeMillis.isSome = true) ∧
      assignedKey (Scheduler.construct 10 true 0) { timeMillis := some 50 } ≠
        assignedKey
          (applyOps
            (Scheduler.add (Scheduler.construct 10 true 0) 1
              (AddArg.cfg { timeMillis := some 50 }) 0).1
            [SchedulerOp.opStop, SchedulerOp.opStart 30])
          { timeMillis := some 60 }) :=
  ⟨⟨by decide, by decide, by decide⟩,
    idCounter_monotone_default_keys_distinct.2.2.2.2 (Scheduler.construct 10 true 0) 1
      { timeMillis := some 50 } { timeMillis := some 60 } 0
      [SchedulerOp.opStop, SchedulerOp.opStart 30] (by decide) (by decide) (by decide)⟩

/-! Claim C4 — characterization of one sweep.  Auxiliary facts first. -/

theorem keys_insertA_of_lookup {α β : Type} [DecidableEq α] (l : List (α × β)) (k : α)
    (v v0 : β) (h : lookupA l k = some v0) :
    (insertA l k v).map Prod.fst = l.map Prod.fst := by
  induction l with
  | nil => simp [lookupA] at h
  | cons p t ih =>
    obtain ⟨a, b⟩ := p
    by_cases ha : a = k
    · subst ha
      simp [insertA]
    · simp only [lookupA, ha, if_false] at h
      simp [insertA, ha, ih h]

theorem mem_insertA {α β : Type} [DecidableEq α] {l : List (α × β)} {k : α} {v : β}
    {p : α × β} (h : p ∈ insertA l k v) : p = (k, v) ∨ p ∈ l := by
  induction l with
  | nil => simpa [insertA] using h
  | cons q t ih =>
    obtain ⟨a, b⟩ := q
    by_cases ha : a = k
    · subst ha
      simp only [insertA, if_pos rfl] at h
      rcases List.mem_cons.mp h with h1 | h2
      · exact Or.inl h1
      · exact Or.inr (List.mem_cons_of_mem _ h2)
    · simp only [insertA, ha, if_false] at h
      rcases List.mem_cons.mp h with h1 | h2
      · exact Or.inr (h1 ▸ List.mem_cons_self _ _)
      · rcases ih h2 with h3 | h4
        · exact Or.inl h3
        · exact Or.inr (List.mem_cons_of_mem _ h4)

theorem eraseA_sublist {α β : Type} [DecidableEq α] (l : List (α × β)) (k : α) :
    (eraseA l k).Sublist l := by
  induction l with
  | nil => simp [eraseA]
  | cons p t ih =>
    obtain ⟨a, b⟩ := p
    by_cases ha : a = k
    · simp only [eraseA, ha, if_pos rfl]
      exact (List.sublist_cons_self _ _)
    · simp only [eraseA, ha, if_false]
      exact ih.cons₂ _

theorem nodup_keys_eraseA {α β : Type} [DecidableEq α] {l : List (α × β)} (k : α)
    (h : (l.map Prod.fst).Nodup) : ((eraseA l k).map Prod.fst).Nodup :=
  ((eraseA_sublist l k).map Prod.fst).nodup h

theorem sweepWF_nodupTids {w : World} (h : sweepWF w = true) : (allLiveTids w).Nodup := by
  have := (Bool.and_eq_true .. ▸ h).1
  have := (Bool.and_eq_true .. ▸ this).1
  have := (Bool.and_eq_true .. ▸ this).1
  exact of_decide_eq_true this

theorem sweepWF_entries {w : World} (h : sweepWF w = true) :
    ∀ p ∈ liveMap w, ∀ q ∈ p.2, ∃ t', lookupA w.timeouts q.2 = some t' ∧
      t'.options.bucketKey = p.1 ∧ t'.options.key = q.1 ∧
      t'.capturedGen = w.sched.liveGen := by
  have h1 := (Bool.and_eq_true .. ▸ (Bool.and_eq_true .. ▸ (Bool.and_eq_true .. ▸ h).1).1).2
  intro p hp q hq
  have h2 := List.all_eq_true.mp h1 p hp
  have h3 := List.all_eq_true.mp h2 q hq
  cases hlk : lookupA w.timeouts q.2 with
  | none => rw [hlk] at h3; simp at h3
  | some t' =>
    rw [hlk] at h3
    simp only [Bool.and_eq_true, beq_iff_eq] at h3
    exact ⟨t', rfl, h3.1.1, h3.1.2, h3.2⟩

theorem sweepWF_nodupOuter {w : World} (h : sweepWF w = true) :
    ((liveMap w).map Prod.fst).Nodup := by
  have := (Bool.and_eq_true .. ▸ (Bool.and_eq_true .. ▸ h).1).2
  exact of_decide_eq_true this

theorem sweepWF_nodupBuckets {w : World} (h : sweepWF w = true) :
    ∀ p ∈ liveMap w, (p.2.map Prod.fst).Nodup := by
  have h1 := (Bool.and_eq_true .. ▸ h).2
  intro p hp
  exact of_decide_eq_true (List.all_eq_true.mp h1 p hp)

theorem sweepWF_nodupLive {w : World} (h : sweepWF w = true) : nodupLive w :=
  ⟨sweepWF_nodupOuter h, sweepWF_nodupBuckets h⟩

theorem mem_foldr_flat (L : List (String × Bucket)) (a : Nat) :
    (a ∈ L.foldr (fun p acc => p.2.map Prod.snd ++ acc) []) ↔
      ∃ p ∈ L, a ∈ p.2.map Prod.snd := by
  induction L with
  | nil => simp
  | cons p t ih => simp [List.mem_append, ih]

theorem mem_allLiveTids {w : World} {a : Nat} :
    a ∈ allLiveTids w ↔ ∃ p ∈ liveMap w, a ∈ p.2.map Prod.snd :=
  mem_foldr_flat (liveMap w) a

/-- Unpacking of a successful position lookup. -/
theorem getLive_some {w : World} {bk k : String} {tid : Nat}
    (h : getLive w bk k = some tid) :
    ∃ bmap bucket, lookupA w.maps w.sched.liveGen = some bmap ∧
      lookupA bmap bk = some bucket ∧ lookupA bucket k = some tid := by
  unfold getLive liveMap at h
  cases hm : lookupA w.maps w.sched.liveGen with
  | none =>
    rw [hm] at h
    simp [lookupA] at h
  | some bmap =>
    rw [hm] at h
    simp only [Option.getD_some] at h
    cases hb : lookupA bmap bk with
    | none =>
      rw [hb] at h
      simp [lookupA] at h
    | some bucket =>
      rw [hb] at h
      simp only [Option.getD_some] at h
      exact ⟨bmap, bucket, rfl, hb, h⟩

/-- Cancelling a timeout whose stored position differs from (bk, k) leaves
the (bk, k) cell of the live buckets map unchanged. -/
theorem getLive_timeoutCancel_ne (w : World) (tid : Nat) (bk k : String)
    (h : ∀ t', lookupA w.timeouts tid = some t' →
      ¬(t'.options.bucketKey = bk ∧ t'.options.key = k)) :
    getLive (timeoutCancel w tid) bk k = getLive w bk k := by
  unfold timeoutCancel
  cases ht : lookupA w.timeouts tid with
  | none => rfl
  | some t =>
    dsimp only
    cases hm : lookupA w.maps t.capturedGen with
    | none => rfl
    | some bmap =>
      dsimp only
      cases hb : lookupA bmap t.options.bucketKey with
      | none => rfl
      | some bucket =>
        dsimp only
        unfold getLive liveMap
        dsimp only
        by_cases hg : t.capturedGen = w.sched.liveGen
        · rw [hg] at hm
          rw [hg, lookupA_insertA_self, hm]
          simp only [Option.getD_some]
          by_cases hbk : t.options.bucketKey = bk
          · have hk2 : t.options.key ≠ k := by
              intro hk
              exact h t ht ⟨hbk, hk⟩
            rw [hbk, lookupA_insertA_self]
            rw [hbk] at hb
            rw [hb]
            simp only [Option.getD_some]
            exact lookupA_eraseA_ne _ _ _ (Ne.symm hk2)
          · rw [lookupA_insertA_ne _ _ _ _ (Ne.symm hbk)]
        · rw [lookupA_insertA_ne _ _ _ _ (Ne.symm hg)]

theorem liveMap_setMaps_self (w : World) (g : Nat) (bm : BucketMap)
    (hg : g = w.sched.liveGen) :
    liveMap { w with maps := insertA w.maps g bm } = bm := by
  unfold liveMap
  show (lookupA (insertA w.maps g bm) w.sched.liveGen).getD [] = bm
  rw [← hg, lookupA_insertA_self]
  rfl

theorem liveMap_setMaps_ne (w : World) (g : Nat) (bm : BucketMap)
    (hg : ¬ g = w.sched.liveGen) :
    liveMap { w with maps := insertA w.maps g bm } = liveMap w := by
  unfold liveMap
  show (lookupA (insertA w.maps g bm) w.sched.liveGen).getD [] = _
  rw [lookupA_insertA_ne _ _ _ _ (Ne.symm hg)]

/-- Cancelling preserves key uniqueness of the live buckets map. -/
theorem nodupLive_timeoutCancel (w : World) (tid : Nat) (h : nodupLive w) :
    nodupLive (timeoutCancel w tid) := by
  unfold timeoutCancel
  cases ht : lookupA w.timeouts tid with
  | none => exact h
  | some t =>
    dsimp only
    cases hm : lookupA w.maps t.capturedGen with
    | none => exact h
    | some bmap =>
      dsimp only
      cases hb : lookupA bmap t.options.bucketKey with
      | none => exact h
      | some bucket =>
        dsimp only
        by_cases hg : t.capturedGen = w.sched.liveGen
        · have hlm : liveMap w = bmap := by
            unfold liveMap
            rw [← hg, hm]
            rfl
          have hlm' := liveMap_setMaps_self w t.capturedGen
            (insertA bmap t.options.bucketKey (eraseA bucket t.options.key)) hg
          unfold nodupLive at h ⊢
          rw [hlm']
          rw [hlm] at h
          constructor
          · rw [keys_insertA_of_lookup _ _ _ _ hb]
            exact h.1
          · intro p hp
            rcases mem_insertA hp with h1 | h2
            · rw [h1]
              exact nodup_keys_eraseA _ (h.2 _ (lookupA_mem _ _ _ hb))
            · exact h.2 p h2
        · have hlm2 := liveMap_setMaps_ne w t.capturedGen
            (insertA bmap t.options.bucketKey (eraseA bucket t.options.key)) hg
          unfold nodupLive
          rw [hlm2]
          exact h

theorem sweepStep_heap_frame (now : Int) (acc : World × List Nat) (x y : Nat)
    (hxy : y ≠ x) :
    lookupA (sweepStep now acc x).1.timeouts y = lookupA acc.1.timeouts y := by
  unfold sweepStep
  dsimp only
  cases hlt : lookupA acc.1.timeouts x with
  | none => rfl
  | some t =>
    dsimp only
    split
    · split
      · exact lookupA_insertA_ne _ _ _ _ hxy
      · rw [(timeoutCancel_frame _ _).2]
        exact lookupA_insertA_ne _ _ _ _ hxy
    · rfl

theorem sweepStep_getLive_frame (now : Int) (acc : World × List Nat) (x : Nat)
    (bk k : String)
    (hx : ∀ t', lookupA acc.1.timeouts x = some t' →
      ¬(t'.options.bucketKey = bk ∧ t'.options.key = k)) :
    getLive (sweepStep now acc x).1 bk k = getLive acc.1 bk k := by
  unfold sweepStep
  dsimp only
  cases hlt : lookupA acc.1.timeouts x with
  | none => rfl
  | some t =>
    dsimp only
    split
    · split
      · rfl
      · rw [getLive_timeoutCancel_ne]
        · rfl
        · intro t' ht'
          rw [show (setTimeoutObj acc.1 x { t with state := TState.complete }).timeouts =
            insertA acc.1.timeouts x { t with state := TState.complete } from rfl,
            lookupA_insertA_self] at ht'
          cases ht'
          exact hx t hlt
    · rfl

theorem sweepStep_nodupLive (now : Int) (acc : World × List Nat) (x : Nat)
    (h : nodupLive acc.1) : nodupLive (sweepStep now acc x).1 := by
  unfold sweepStep
  dsimp only
  cases hlt : lookupA acc.1.timeouts x with
  | none => exact h
  | some t =>
    dsimp only
    split
    · split
      · exact h
      · exact nodupLive_timeoutCancel _ _ h
    · exact h

theorem sweepStep_fired_mono (now : Int) (acc : World × List Nat) (x : Nat) :
    ∀ c ∈ acc.2, c ∈ (sweepStep now acc x).2 := by
  unfold sweepStep
  dsimp only
  cases hlt : lookupA acc.1.timeouts x with
  | none => exact fun c hc => hc
  | some t =>
    dsimp only
    split
    · split
      · exact fun c hc => List.mem_append_left _ hc
      · exact fun c hc => List.mem_append_left _ hc
    · exact fun c hc => hc

/-- Frame property of the whole sweep fold over a list of timeout ids all
distinct from the target id and all stored at positions different from
(bk, k): the target's heap cell, the (bk, k) cell of the live map, key
uniqueness, and already-fired callbacks are preserved. -/
theorem foldl_sweep_frame (now : Int) (tid : Nat) (bk k : String) (w0 : World) :
    ∀ (l : List Nat) (acc : World × List Nat),
    l.Nodup →
    (∀ x ∈ l, x ≠ tid) →
    (∀ x ∈ l, lookupA acc.1.timeouts x = lookupA w0.timeouts x) →
    (∀ x ∈ l, ∀ t', lookupA w0.timeouts x = some t' →
      ¬(t'.options.bucketKey = bk ∧ t'.options.key = k)) →
    nodupLive acc.1 →
    (∀ y, y ∉ l →
      lookupA (l.foldl (sweepStep now) acc).1.timeouts y = lookupA acc.1.timeouts y) ∧
    getLive (l.foldl (sweepStep now) acc).1 bk k = getLive acc.1 bk k ∧
    nodupLive (l.foldl (sweepStep now) acc).1 ∧
    (∀ c ∈ acc.2, c ∈ (l.foldl (sweepStep now) acc).2) := by
  intro l
  induction l with
  | nil =>
    intro acc _ _ _ _ hnl
    exact ⟨fun y _ => rfl, rfl, hnl, fun c hc => hc⟩
  | cons x xs ih =>
    intro acc hnd hne hagree horig hnl
    have hxmem : x ∈ x :: xs := List.mem_cons_self _ _
    have hx : ∀ t', lookupA acc.1.timeouts x = some t' →
        ¬(t'.options.bucketKey = bk ∧ t'.options.key = k) := by
      intro t' ht'
      exact horig x hxmem t' ((hagree x hxmem) ▸ ht')
    have hxnotin : x ∉ xs := (List.nodup_cons.mp hnd).1
    obtain ⟨ha, hb, hc, hd⟩ := ih (sweepStep now acc x) (List.nodup_cons.mp hnd).2
      (fun y hy => hne y (List.mem_cons_of_mem _ hy))
      (fun y hy => by
        have hyx : y ≠ x := fun he => hxnotin (he ▸ hy)
        rw [sweepStep_heap_frame now acc x y hyx]
        exact hagree y (List.mem_cons_of_mem _ hy))
      (fun y hy => horig y (List.mem_cons_of_mem _ hy))
      (sweepStep_nodupLive now acc x hnl)
    refine ⟨?_, ?_, hc, ?_⟩
    · intro y hy
      have hyx : y ≠ x := fun he => hy (he ▸ List.mem_cons_self _ _)
      have hyxs : y ∉ xs := fun he => hy (List.mem_cons_of_mem _ he)
      rw [List.foldl_cons, ha y hyxs, sweepStep_heap_frame now acc x y hyx]
    · rw [List.foldl_cons, hb, sweepStep_getLive_frame now acc x bk k hx]
    · intro c hcmem
      rw [List.foldl_cons]
      exact hd c (sweepStep_fired_mono now acc x c hcmem)

theorem INTERNAL_run_frame (w : World) (i n : Int) :
    (INTERNAL_run w i n).timeouts = w.timeouts ∧
    (INTERNAL_run w i n).maps = w.maps ∧
    (INTERNAL_run w i n).sched.liveGen = w.sched.liveGen := by
  unfold INTERNAL_run
  split
  · exact ⟨rfl, rfl, rfl⟩
  · exact ⟨rfl, rfl, rfl⟩

theorem getLive_INTERNAL_run (w : World) (i n : Int) (bk k : String) :
    getLive (INTERNAL_run w i n) bk k = getLive w bk k := by
  unfold getLive liveMap
  rw [(INTERNAL_run_frame w i n).2.1, (INTERNAL_run_frame w i n).2.2]

/-- Evaluation of the sweep step at the target timeout itself. -/
theorem sweepStep_target (now : Int) (acc : World × List Nat) (tid : Nat)
    (t : TimeoutInternal) (ht : lookupA acc.1.timeouts tid = some t) :
    (¬(t.state = TState.pending ∧ t.remainingTime now ≤ 0) →
      sweepStep now acc tid = acc) ∧
    ((t.state = TState.pending ∧ t.remainingTime now ≤ 0) →
      (t.options.recurring = true →
        sweepStep now acc tid =
          (setTimeoutObj acc.1 tid { t with expiration := now + t.options.timeMillis },
            acc.2 ++ [t.callback])) ∧
      (t.options.recurring = false →
        sweepStep now acc tid =
          (timeoutCancel (setTimeoutObj acc.1 tid { t with state := TState.complete }) tid,
            acc.2 ++ [t.callback]))) := by
  unfold sweepStep
  dsimp only
  rw [ht]
  dsimp only
  constructor
  · intro hcond
    rw [if_neg hcond]
  · intro hcond
    rw [if_pos hcond]
    constructor
    · intro hrec
      rw [if_pos hrec]
    · intro hrec
      rw [if_neg (by simp [hrec])]

/-- Cancelling the timeout that is stored exactly at position (bk, k) of
the live buckets map empties that cell. -/
theorem getLive_timeoutCancel_evict (W : World) (tid : Nat) (t4 : TimeoutInternal)
    (bk k : String)
    (hheap : lookupA W.timeouts tid = some t4)
    (hbk : t4.options.bucketKey = bk) (hk : t4.options.key = k)
    (hgen : t4.capturedGen = W.sched.liveGen)
    (hpos : getLive W bk k = some tid)
    (hnl : nodupLive W) :
    getLive (timeoutCancel W tid) bk k = none := by
  obtain ⟨bmap, bucket, hm, hbm, hkk⟩ := getLive_some hpos
  have hlm : liveMap W = bmap := by
    unfold liveMap
    rw [hm]
    rfl
  unfold timeoutCancel
  rw [hheap]
  dsimp only
  rw [hgen, hm]
  dsimp only
  rw [hbk, hbm]
  dsimp only
  unfold getLive
  rw [liveMap_setMaps_self _ _ _ rfl]
  rw [lookupA_insertA_self]
  simp only [Option.getD_some]
  rw [hk]
  exact lookupA_eraseA_self _ _
    (hnl.2 (bk, bucket) (hlm ▸ lookupA_mem _ _ _ hbm))

theorem foldl_sweep_fired_mono (now : Int) (l : List Nat) (acc : World × List Nat) :
    ∀ c ∈ acc.2, c ∈ (l.foldl (sweepStep now) acc).2 := by
  induction l generalizing acc with
  | nil => exact fun c hc => hc
  | cons x xs ih =>
    intro c hc
    rw [List.foldl_cons]
    exact ih (sweepStep now acc x) c (sweepStep_fired_mono now acc x c hc)

/-- C4: characterization of one sweep.  For every entry of the live buckets
map — bucket key bk, timeout key k, timeout id tid with heap object t — if
t is pending and expired (remainingTime ≤ 0) then its callback is invoked,
and afterwards: if recurring, its expiration is now + timeMillis (measured
from firing time), its state is still pending, and it is still in its
bucket; otherwise its state is complete and its entry has been removed from
its bucket.  A timeout that is not pending or not expired is left
completely untouched: same heap object and same bucket entry. -/
theorem sweep_characterization (w : World) (now : Int) (bk k : String) (tid : Nat)
    (t : TimeoutInternal)
    (hwf : sweepWF w = true)
    (hpos : getLive w bk k = some tid)
    (ht : getTimeout w tid = some t) :
    ((t.state = TState.pending ∧ t.remainingTime now ≤ 0) →
      t.callback ∈ (runExpiredCallbacks w now).2 ∧
      (t.options.recurring = true →
        getTimeout (runExpiredCallbacks w now).1 tid =
          some { t with expiration := now + t.options.timeMillis } ∧
        getLive (runExpiredCallbacks w now).1 bk k = some tid) ∧
      (t.options.recurring = false →
        getTimeout (runExpiredCallbacks w now).1 tid =
          some { t with state := TState.complete } ∧
        getLive (runExpiredCallbacks w now).1 bk k = none)) ∧
    (¬(t.state = TState.pending ∧ t.remainingTime now ≤ 0) →
      getTimeout (runExpiredCallbacks w now).1 tid = some t ∧
      getLive (runExpiredCallbacks w now).1 bk k = some tid) := by
  have hnl := sweepWF_nodupLive hwf
  have hnd := sweepWF_nodupTids hwf
  obtain ⟨bmap, bucket, hm, hbm, hkk⟩ := getLive_some hpos
  have hlmw : liveMap w = bmap := by
    unfold liveMap
    rw [hm]
    rfl
  have hbmem : (bk, bucket) ∈ liveMap w := hlmw ▸ lookupA_mem _ _ _ hbm
  have hkmem : (k, tid) ∈ bucket := lookupA_mem _ _ _ hkk
  have htid_mem : tid ∈ allLiveTids w := by
    rw [mem_allLiveTids]
    exact ⟨(bk, bucket), hbmem, List.mem_map.mpr ⟨(k, tid), hkmem, rfl⟩⟩
  obtain ⟨t0, ht0, ht0bk, ht0k, ht0gen⟩ :=
    sweepWF_entries hwf (bk, bucket) hbmem (k, tid) hkmem
  have ht0t : t0 = t := Option.some.inj (ht0.symm.trans ht)
  rw [ht0t] at ht0bk ht0k ht0gen
  have hother : ∀ x ∈ allLiveTids w, x ≠ tid → ∀ t', lookupA w.timeouts x = some t' →
      ¬(t'.options.bucketKey = bk ∧ t'.options.key = k) := by
    intro x hx hxne t' ht' hcon
    rw [mem_allLiveTids] at hx
    obtain ⟨p, hp, hxp⟩ := hx
    obtain ⟨pbk, pb⟩ := p
    rw [List.mem_map] at hxp
    obtain ⟨q, hq, hq2⟩ := hxp
    obtain ⟨qk, qx⟩ := q
    simp only at hq2
    rw [hq2] at hq
    obtain ⟨t'', ht'', hbk'', hk'', _⟩ := sweepWF_entries hwf (pbk, pb) hp (qk, x) hq
    simp only at ht'' hbk'' hk''
    have ht2 : t'' = t' := Option.some.inj (ht''.symm.trans ht')
    rw [ht2] at hbk'' hk''
    have hpbk : pbk = bk := hbk''.symm.trans hcon.1
    have hqk : qk = k := hk''.symm.trans hcon.2
    have hlp : lookupA (liveMap w) pbk = some pb := mem_lookupA _ _ _ hnl.1 hp
    rw [hpbk, hlmw] at hlp
    have hpb : pb = bucket := Option.some.inj (hlp.symm.trans hbm)
    have hlq : lookupA pb qk = some x :=
      mem_lookupA _ _ _ (hnl.2 (pbk, pb) hp) hq
    rw [hqk, hpb] at hlq
    exact hxne (Option.some.inj (hlq.symm.trans hkk))
  obtain ⟨l1, l2, hsplit⟩ := List.append_of_mem htid_mem
  rw [hsplit] at hnd
  obtain ⟨hnd1, hnd2', hdisj⟩ := List.nodup_append.mp hnd
  obtain ⟨htidnotin2, hnd2⟩ := List.nodup_cons.mp hnd2'
  have htidnotin1 : tid ∉ l1 := fun hc => hdisj hc (List.mem_cons_self _ _)
  have hmem1 : ∀ x ∈ l1, x ∈ allLiveTids w := by
    intro x hx
    rw [hsplit]
    exact List.mem_append_left _ hx
  have hmem2 : ∀ x ∈ l2, x ∈ allLiveTids w := by
    intro x hx
    rw [hsplit]
    exact List.mem_append_right _ (List.mem_cons_of_mem _ hx)
  have hne2 : ∀ x ∈ l2, x ≠ tid := by
    intro x hx he
    exact htidnotin2 (he ▸ hx)
  have hnotin1 : ∀ x ∈ l2, x ∉ l1 := by
    intro x hx hc
    exact hdisj hc (List.mem_cons_of_mem _ hx)
  obtain ⟨hA_heap, hA_live, hA_nl, _⟩ :=
    foldl_sweep_frame now tid bk k w l1 (w, []) hnd1
      (fun x hx he => htidnotin1 (he ▸ hx))
      (fun x _ => rfl)
      (fun x hx t' ht' =>
        hother x (hmem1 x hx) (fun he => htidnotin1 (he ▸ hx)) t' ht')
      hnl
  have hA_t : lookupA (l1.foldl (sweepStep now) (w, [])).1.timeouts tid = some t := by
    rw [hA_heap tid htidnotin1]
    exact ht
  have hA_pos : getLive (l1.foldl (sweepStep now) (w, [])).1 bk k = some tid := by
    rw [hA_live]
    exact hpos
  have hA_sched : (l1.foldl (sweepStep now) (w, [])).1.sched = w.sched :=
    foldl_sweepStep_sched now l1 (w, [])
  have hFold : (allLiveTids w).foldl (sweepStep now) (w, []) =
      l2.foldl (sweepStep now)
        (sweepStep now (l1.foldl (sweepStep now) (w, [])) tid) := by
    rw [hsplit, List.foldl_append, List.foldl_cons]
  have hfin_heap : ∀ y, getTimeout (runExpiredCallbacks w now).1 y =
      lookupA (l2.foldl (sweepStep now)
        (sweepStep now (l1.foldl (sweepStep now) (w, [])) tid)).1.timeouts y := by
    intro y
    unfold runExpiredCallbacks getTimeout
    dsimp only
    rw [(INTERNAL_run_frame _ _ _).1, hFold]
  have hfin_live : getLive (runExpiredCallbacks w now).1 bk k =
      getLive (l2.foldl (sweepStep now)
        (sweepStep now (l1.foldl (sweepStep now) (w, [])) tid)).1 bk k := by
    unfold runExpiredCallbacks
    dsimp only
    rw [getLive_INTERNAL_run, hFold]
  have hfin_fired : (runExpiredCallbacks w now).2 =
      (l2.foldl (sweepStep now)
        (sweepStep now (l1.foldl (sweepStep now) (w, [])) tid)).2 := by
    unfold runExpiredCallbacks
    dsimp only
    rw [hFold]
  have hTgt := sweepStep_target now (l1.foldl (sweepStep now) (w, [])) tid t hA_t
  constructor
  · intro hcond
    have hTgt2 := hTgt.2 hcond
    have hBfired : (sweepStep now (l1.foldl (sweepStep now) (w, [])) tid).2 =
        (l1.foldl (sweepStep now) (w, [])).2 ++ [t.callback] := by
      cases hrec : t.options.recurring with
      | true => rw [hTgt2.1 hrec]
      | false => rw [hTgt2.2 hrec]
    refine ⟨?_, ?_, ?_⟩
    · rw [hfin_fired]
      refine foldl_sweep_fired_mono now l2 _ _ ?_
      rw [hBfired]
      exact List.mem_append_right _ (List.mem_singleton.mpr rfl)
    · intro hrec
      have hB := hTgt2.1 hrec
      obtain ⟨h3_heap, h3_live, _, _⟩ :=
        foldl_sweep_frame now tid bk k w l2
          (sweepStep now (l1.foldl (sweepStep now) (w, [])) tid) hnd2
          (hne2)
          (fun x hx => by
            rw [hB]
            show lookupA (insertA (l1.foldl (sweepStep now) (w, [])).1.timeouts tid _) x = _
            rw [lookupA_insertA_ne _ _ _ _ (hne2 x hx)]
            exact hA_heap x (hnotin1 x hx))
          (fun x hx t' ht' => hother x (hmem2 x hx) (hne2 x hx) t' ht')
          (by rw [hB]; exact hA_nl)
      constructor
      · rw [hfin_heap tid, h3_heap tid htidnotin2, hB]
        exact lookupA_insertA_self _ _ _
      · rw [hfin_live, h3_live, hB]
        exact hA_pos
    · intro hrec
      have hB := hTgt2.2 hrec
      have hW2_heap_tid :
          lookupA (setTimeoutObj (l1.foldl (sweepStep now) (w, [])).1 tid
            { t with state := TState.complete }).timeouts tid =
          some { t with state := TState.complete } := lookupA_insertA_self _ _ _
      have hB_pos :
          getLive (timeoutCancel (setTimeoutObj (l1.foldl (sweepStep now) (w, [])).1 tid
            { t with state := TState.complete }) tid) bk k = none := by
        refine getLive_timeoutCancel_evict _ tid _ bk k hW2_heap_tid ht0bk ht0k ?_
          hA_pos hA_nl
        show t.capturedGen = (l1.foldl (sweepStep now) (w, [])).1.sched.liveGen
        rw [hA_sched]
        exact ht0gen
      have hB_nl :
          nodupLive (timeoutCancel (setTimeoutObj (l1.foldl (sweepStep now) (w, [])).1 tid
            { t with state := TState.complete }) tid) :=
        nodupLive_timeoutCancel _ _ hA_nl
      obtain ⟨h3_heap, h3_live, _, _⟩ :=
        foldl_sweep_frame now tid bk k w l2
          (sweepStep now (l1.foldl (sweepStep now) (w, [])) tid) hnd2
          (hne2)
          (fun x hx => by
            rw [hB]
            show lookupA (timeoutCancel _ tid).timeouts x = _
            rw [(timeoutCancel_frame _ _).2]
            show lookupA (insertA (l1.foldl (sweepStep now) (w, [])).1.timeouts tid _) x = _
            rw [lookupA_insertA_ne _ _ _ _ (hne2 x hx)]
            exact hA_heap x (hnotin1 x hx))
          (fun x hx t' ht' => hother x (hmem2 x hx) (hne2 x hx) t' ht')
          (by rw [hB]; exact hB_nl)
      constructor
      · rw [hfin_heap tid, h3_heap tid htidnotin2, hB]
        rw [(timeoutCancel_frame _ _).2]
        exact hW2_heap_tid
      · rw [hfin_live, h3_live, hB]
        exact hB_pos
  · intro hcond
    have hB := hTgt.1 hcond
    obtain ⟨h3_heap, h3_live, _, _⟩ :=
      foldl_sweep_frame now tid bk k w l2
        (sweepStep now (l1.foldl (sweepStep now) (w, [])) tid) hnd2
        (hne2)
        (fun x hx => by
          rw [hB]
          exact hA_heap x (hnotin1 x hx))
        (fun x hx t' ht' => hother x (hmem2 x hx) (hne2 x hx) t' ht')
        (by rw [hB]; exact hA_nl)
    constructor
    · rw [hfin_heap tid, h3_heap tid htidnotin2, hB]
      exact hA_t
    · rw [hfin_live, h3_live, hB]
      exact hA_pos

theorem sweep_characterization_witness :
    (sweepWF sweepWorldC4 = true ∧
      getLive sweepWorldC4 DEFAULT_BUCKET_KEY "a" = some 0 ∧
      getTimeout sweepWorldC4 0 = some sweepTimeoutC4) ∧
    (((sweepTimeoutC4.state = TState.pending ∧
        sweepTimeoutC4.remainingTime 60 ≤ 0) →
      sweepTimeoutC4.callback ∈ (runExpiredCallbacks sweepWorldC4 60).2 ∧
      (sweepTimeoutC4.options.recurring = true →
        getTimeout (runExpiredCallbacks sweepWorldC4 60).1 0 =
          some { sweepTimeoutC4 with
            expiration := 60 + sweepTimeoutC4.options.timeMillis } ∧
        getLive (runExpiredCallbacks sweepWorldC4 60).1 DEFAULT_BUCKET_KEY "a" =
          some 0) ∧
      (sweepTimeoutC4.options.recurring = false →
        getTimeout (runExpiredCallbacks sweepWorldC4 60).1 0 =
          some { sweepTimeoutC4 with state := TState.complete } ∧
        getLive (runExpiredCallbacks sweepWorldC4 60).1 DEFAULT_BUCKET_KEY "a" =
          none)) ∧
    (¬(sweepTimeoutC4.state = TState.pending ∧
        sweepTimeoutC4.remainingTime 60 ≤ 0) →
      getTimeout (runExpiredCallbacks sweepWorldC4 60).1 0 = some sweepTimeoutC4 ∧
      getLive (runExpiredCallbacks sweepWorldC4 60).1 DEFAULT_BUCKET_KEY "a" =
        some 0)) :=
  ⟨⟨by decide, by decide, by decide⟩,
    sweep_characterization sweepWorldC4 60 DEFAULT_BUCKET_KEY "a" 0 sweepTimeoutC4
      (by decide) (by decide) (by decide)⟩

end SmartScheduler
